import Mathlib

/-!
# Findora: ranking, filtering and rating persistence

A shallow embedding of the result-ranking code of
`src/mobile/src/app/results.jsx`, of the distance computation of
`src/mobile/src/app/directions.jsx` and of the three rating routes under
`src/web/src/app/api/ratings/` (`create`, `get`, `list`).

Numbers.  A JavaScript number is modelled by `JSNum α`: either `NaN` or a
finite value of an ordered field `α` (`ℚ` for evaluation).  Arithmetic on
finite values is exact (rounding is not modelled) and `NaN` propagates the way
it does in JavaScript.  The infinities are left out: every divisor in the code
is a non-zero constant, so exact arithmetic never produces one.

Property access.  A field that may be missing from a provider record is an
`Option`: `none` stands for `undefined` or `null`, which the code treats alike
there.  The two coordinate fields, where the code treats them differently, are
a `GeoField`.

Sorting.  `Array.prototype.sort` is modelled by the algorithm V8 runs on an
array of fewer than 64 elements.
-/

namespace Findora

/-! ## Numbers -/

/-- A JavaScript number: `NaN` or a finite value. -/
inductive JSNum (α : Type) where
  | nan : JSNum α
  | fin : α → JSNum α
  deriving DecidableEq, Repr

namespace JSNum

variable {α : Type}

/-- Lift a unary function on finite values; `NaN` is propagated. -/
def lift1 (f : α → α) : JSNum α → JSNum α
  | fin x => fin (f x)
  | nan => nan

/-- Lift a binary function on finite values; `NaN` is propagated. -/
def lift2 (f : α → α → α) : JSNum α → JSNum α → JSNum α
  | fin x, fin y => fin (f x y)
  | _, _ => nan

variable [LinearOrderedField α]

/-- JavaScript `x + y`. -/
def add (x y : JSNum α) : JSNum α := lift2 (· + ·) x y

/-- JavaScript `x - y`. -/
def sub (x y : JSNum α) : JSNum α := lift2 (· - ·) x y

/-- JavaScript `x * y`. -/
def mul (x y : JSNum α) : JSNum α := lift2 (· * ·) x y

/-- JavaScript `x / c` for a non-zero constant `c`. -/
def divc (x : JSNum α) (c : α) : JSNum α := lift1 (· / c) x

/-- JavaScript `Math.min(x, y)`: `NaN` as soon as one argument is `NaN`. -/
def jsMin (x y : JSNum α) : JSNum α := lift2 min x y

/-- JavaScript `Math.max(x, y)`: `NaN` as soon as one argument is `NaN`. -/
def jsMax (x y : JSNum α) : JSNum α := lift2 max x y

/-- JavaScript `x < y`: false as soon as one side is `NaN`. -/
def lt : JSNum α → JSNum α → Bool
  | fin x, fin y => decide (x < y)
  | _, _ => false

/-- JavaScript `x > y`. -/
def gt (x y : JSNum α) : Bool := lt y x

/-- JavaScript `x <= y`: false as soon as one side is `NaN`. -/
def le : JSNum α → JSNum α → Bool
  | fin x, fin y => decide (x ≤ y)
  | _, _ => false

/-- JavaScript `x >= y`. -/
def ge (x y : JSNum α) : Bool := le y x

end JSNum

open JSNum

variable {α : Type} [LinearOrderedField α]

/-- A coordinate field of a provider record: the key is absent (`undefined`),
holds `null`, or holds a number. -/
inductive GeoField (α : Type) where
  | undefined : GeoField α
  | null : GeoField α
  | number : α → GeoField α
  deriving DecidableEq, Repr

/-- The value of a coordinate field in arithmetic (`ToNumber`): `undefined`
becomes `NaN`, `null` becomes `0`. -/
def toNumber : GeoField α → JSNum α
  | GeoField.undefined => nan
  | GeoField.null => fin 0
  | GeoField.number x => fin x

/-- The expression `v || 0` for a numeric or missing field `v`: a missing
field and the number `0` are falsy. -/
def orZero : Option α → JSNum α
  | some x => if x = 0 then fin 0 else fin x
  | none => fin 0

/-! ## RankScorer -/

/-- `calculateRankScore` of `results.jsx`. -/
def calculateRankScore (rating reviewCount distance : JSNum α) : JSNum α :=
  let ratingScore := mul (divc rating 5) (fin 50)
  let reviewScore := jsMin (mul (divc reviewCount 100) (fin 30)) (fin 30)
  let distanceScore := jsMax (sub (fin 20) (mul distance (fin 2))) (fin 0)
  add (add ratingScore reviewScore) distanceScore

/-- The rating component as the specification words it: `(rating / 5) × 50`. -/
def ratingComponent (rating : α) : α := (rating / 5) * 50

/-- The review component as the specification words it:
`min((reviewCount / 100) × 30, 30)`. -/
def reviewComponent (reviewCount : α) : α := min ((reviewCount / 100) * 30) 30

/-- The distance component as the specification words it:
`max(20 − distanceKm × 2, 0)`. -/
def distanceComponent (distanceKm : α) : α := max (20 - distanceKm * 2) 0

/-! ## GeoDistance -/

/-- The functions and the constant of the JavaScript `Math` object that the
distance computation uses, on finite values.  They are a parameter of the
model: instantiate with rational approximations to evaluate, or with the real
functions to reason about the haversine formula. -/
structure MathFns (α : Type) where
  pi : α
  sin : α → α
  cos : α → α
  sqrt : α → α
  atan2 : α → α → α

/-- JavaScript `Math.sin`. -/
def mathSin (M : MathFns α) (x : JSNum α) : JSNum α := lift1 M.sin x

/-- JavaScript `Math.cos`. -/
def mathCos (M : MathFns α) (x : JSNum α) : JSNum α := lift1 M.cos x

/-- JavaScript `Math.sqrt`: `NaN` on a negative argument. -/
def mathSqrt (M : MathFns α) : JSNum α → JSNum α
  | fin x => if x < 0 then nan else fin (M.sqrt x)
  | nan => nan

/-- JavaScript `Math.atan2`. -/
def mathAtan2 (M : MathFns α) (y x : JSNum α) : JSNum α := lift2 M.atan2 y x

/-- `toRad` of `results.jsx`: `(value * Math.PI) / 180`. -/
def toRad (M : MathFns α) (value : JSNum α) : JSNum α :=
  divc (mul value (fin M.pi)) 180

/-- `calculateDistance` of `results.jsx`. -/
def calculateDistance (M : MathFns α) (lat1 lon1 lat2 lon2 : JSNum α) : JSNum α :=
  let R : JSNum α := fin 6371
  let dLat := toRad M (sub lat2 lat1)
  let dLon := toRad M (sub lon2 lon1)
  let a :=
    add (mul (mathSin M (divc dLat 2)) (mathSin M (divc dLat 2)))
      (mul (mul (mul (mathCos M (toRad M lat1)) (mathCos M (toRad M lat2)))
        (mathSin M (divc dLon 2))) (mathSin M (divc dLon 2)))
  let c := mul (fin 2) (mathAtan2 M (mathSqrt M a) (mathSqrt M (sub (fin 1) a)))
  mul R c

/-- A rational stand-in for the `Math` functions, exact at the arguments that
occur for two equal coordinates (`sin 0 = 0`, `cos 0 = 1`, `sqrt 0 = 0`,
`sqrt 1 = 1`, `atan2(0, 1) = 0`) and crude elsewhere.  It serves only to
evaluate the model on concrete records. -/
def sampleMath : MathFns ℚ where
  pi := 355 / 113
  sin := fun x => x - x ^ 3 / 6
  cos := fun x => 1 - x ^ 2 / 2
  sqrt := fun x => x * (3 - x) / 2
  atan2 := fun y x => if x = 0 then 0 else y / x

/-! ## ResultRanker -/

/-- A place record as `results.jsx` reads it.  `distance` and `rankScore` are
the two derived fields: missing on a provider record, set by the ranking
step. -/
structure Place (α : Type) where
  business_id : String
  name : String
  rating : Option α
  review_count : Option α
  latitude : GeoField α
  longitude : GeoField α
  business_status : Option String
  distance : Option (JSNum α)
  rankScore : Option (JSNum α)
  deriving DecidableEq, Repr

/-- Reading a derived numeric field of a record: a missing field is
`undefined`, which is `NaN` in arithmetic and comparisons. -/
def readNum : Option (JSNum α) → JSNum α
  | some x => x
  | none => nan

/-- The callback of `.map` in `fetchResults`: `latitude` and `longitude` are
the values of `parseFloat(latitude)` and `parseFloat(longitude)`. -/
def rankEntry (M : MathFns α) (latitude longitude : JSNum α) (place : Place α) :
    Place α :=
  let distance :=
    calculateDistance M latitude longitude (toNumber place.latitude)
      (toNumber place.longitude)
  { place with
    distance := some distance
    rankScore :=
      some (calculateRankScore (orZero place.rating) (orZero place.review_count)
        distance) }

/-- The comparator of `.sort` in `fetchResults`:
`(a, b) => b.rankScore - a.rankScore`. -/
def compareRank (a b : Place α) : JSNum α :=
  sub (readNum b.rankScore) (readNum a.rankScore)

/-- The number the comparator orders a ranked record by: its `rankScore`, when
that is a number. -/
def rankKey (a : Place α) : α :=
  match readNum a.rankScore with
  | fin s => s
  | nan => 0

/-- ECMAScript `SortCompare`: a comparator result of `NaN` counts as `+0`. -/
def sortCompare {β : Type} (comparefn : β → β → JSNum α) (x y : β) : α :=
  match comparefn x y with
  | fin v => v
  | nan => 0

/-- The test that ends a run in V8's `CountAndMakeRun`: a descending run
breaks on `order >= 0`, an ascending run on `order < 0`. -/
def runBreaks (isDescending : Bool) (order : α) : Bool :=
  if isDescending then decide (order ≥ 0) else decide (order < 0)

/-- The loop of V8's `CountAndMakeRun`: the elements after `previous` that
continue the run, and the elements left over.  An ascending run goes on while
`order >= 0`, a descending run while `order < 0`, where `order` compares the
current element with the previous one. -/
def extendRun {β : Type} (comparefn : β → β → JSNum α) (isDescending : Bool)
    (previous : β) : List β → List β × List β
  | [] => ([], [])
  | current :: rest =>
    let order := sortCompare comparefn current previous
    if runBreaks isDescending order then ([], current :: rest)
    else
      ((current :: (extendRun comparefn isDescending current rest).1),
        (extendRun comparefn isDescending current rest).2)

/-- V8's `CountAndMakeRun` at the start of the array: the first run, reversed
when it is descending, and the elements after it. -/
def countAndMakeRun {β : Type} (comparefn : β → β → JSNum α) :
    List β → List β × List β
  | [] => ([], [])
  | [x] => ([x], [])
  | elementHigh :: elementLow :: rest =>
    let isDescending := decide (sortCompare comparefn elementLow elementHigh < 0)
    let run := elementHigh :: elementLow :: (extendRun comparefn isDescending elementLow rest).1
    (if isDescending then run.reverse else run,
      (extendRun comparefn isDescending elementLow rest).2)

/-- The binary search of V8's `BinaryInsertionSort` and the insertion of
`pivot` at the place found, on the slice `work` between `left` and `right`:
`mid` is the middle of the slice; when `order < 0` the search goes on to the
left of `mid` (`right = mid`), else to its right (`left = mid + 1`); on an
empty slice `pivot` is put in.  `fuel` bounds the halvings and is more than
the length of the slice. -/
def binaryInsert {β : Type} (comparefn : β → β → JSNum α) (pivot : β) :
    Nat → List β → List β
  | 0, work => work ++ [pivot]
  | fuel + 1, work =>
    match work.drop (work.length / 2) with
    | [] => work ++ [pivot]
    | atMid :: after =>
      if sortCompare comparefn pivot atMid < 0 then
        binaryInsert comparefn pivot fuel (work.take (work.length / 2)) ++ atMid :: after
      else
        work.take (work.length / 2) ++ atMid :: binaryInsert comparefn pivot fuel after

/-- V8's `BinaryInsertionSort`: the elements after the run are inserted one by
one, left to right, into the sorted part before them. -/
def binaryInsertionSort {β : Type} (comparefn : β → β → JSNum α) (run rest : List β) :
    List β :=
  rest.foldl (fun work pivot => binaryInsert comparefn pivot (work.length + 1) work) run

/-- `Array.prototype.sort(comparefn)` as V8 runs it on an array of fewer than
64 elements (the search asks the provider for at most 50 results): the first
run is counted and made ascending, and the remaining elements are put in by
binary insertion.  For a consistent comparator the result is the one stable
sorted order, which every conforming engine returns; when the comparator
returns `NaN` the standard leaves the order to the engine. -/
def arraySort {β : Type} (comparefn : β → β → JSNum α) (array : List β) : List β :=
  if array.length < 2 then array
  else binaryInsertionSort comparefn (countAndMakeRun comparefn array).1
    (countAndMakeRun comparefn array).2

/-- The ranking step of `fetchResults`: the value passed to `setResults` for
the provider list `data`. -/
def rankResults (M : MathFns α) (latitude longitude : JSNum α)
    (data : List (Place α)) : List (Place α) :=
  if data.length > 0 then
    arraySort compareRank (data.map (rankEntry M latitude longitude))
  else []

/-- Each element's `rankScore` is `>=` (JavaScript comparison) the `rankScore`
of the element that follows it. -/
def SortedByRank (l : List (Place α)) : Prop :=
  List.Chain' (fun a b => ge (readNum a.rankScore) (readNum b.rankScore) = true) l

/-- A provider record without coordinates. -/
def placeNoCoords : Place ℚ :=
  { business_id := "b1", name := "Cafe X", rating := some 4, review_count := some 120,
    latitude := GeoField.undefined, longitude := GeoField.undefined, business_status := some "OPEN",
    distance := none, rankScore := none }

/-- A provider record located at latitude 0, longitude 0. -/
def placeAtOrigin : Place ℚ :=
  { business_id := "b2", name := "Diner Y", rating := some 3, review_count := some 40,
    latitude := GeoField.number 0, longitude := GeoField.number 0, business_status := some "CLOSED",
    distance := none, rankScore := none }

/-- A second provider record at latitude 0, longitude 0, with the rating and
review count of `placeAtOrigin`. -/
def placeAtOriginTwin : Place ℚ :=
  { placeAtOrigin with business_id := "b3", name := "Bistro Z" }

/-- A provider record at latitude 0, longitude 0 with the given identifier and
rating and no review count. -/
def placeRated (businessId : String) (rating : ℚ) : Place ℚ :=
  { business_id := businessId, name := "Place", rating := some rating, review_count := none,
    latitude := GeoField.number 0, longitude := GeoField.number 0,
    business_status := some "OPEN", distance := none, rankScore := none }

/-- A provider list of seven records: `p3` has no coordinates; ranked from the
origin the others score 30, 30, 30, 40, 50 and 40. -/
def stabilityData : List (Place ℚ) :=
  [placeRated "p0" 1, placeRated "p1" 1, placeRated "p2" 1,
    { placeNoCoords with business_id := "p3" },
    placeRated "p4" 2, placeRated "p5" 3, placeRated "p6" 2]

/-- A ranked record: rating 4.5, open, 3 km away, score 89. -/
def rankedNear : Place ℚ :=
  { business_id := "b4", name := "Bar W", rating := some (9 / 2), review_count := some 200,
    latitude := GeoField.number 0, longitude := GeoField.number 0, business_status := some "OPEN",
    distance := some (fin 3), rankScore := some (fin 89) }

/-- A ranked record: no rating, closed, 12 km away, score 12. -/
def rankedFar : Place ℚ :=
  { business_id := "b5", name := "Shop V", rating := none, review_count := some 40,
    latitude := GeoField.number 0, longitude := GeoField.number 0, business_status := some "CLOSED",
    distance := some (fin 12), rankScore := some (fin 12) }

/-! ## ResultFilter -/

/-- The `filters` state of the results screen. -/
structure Filters (α : Type) where
  minRating : α
  openNow : Bool
  maxDistance : α

/-- `applyFilters` of `results.jsx`. -/
def applyFilters (filters : Filters α) (result : Place α) : Bool :=
  if decide (filters.minRating > 0) &&
      lt (orZero result.rating) (fin filters.minRating) then false
  else if filters.openNow && (result.business_status != some "OPEN") then false
  else if gt (readNum result.distance) (fin filters.maxDistance) then false
  else true

/-- The default `filters` state: `minRating: 0, openNow: false,
maxDistance: 10`. -/
def defaultFilters : Filters ℚ :=
  { minRating := 0, openNow := false, maxDistance := 10 }

/-- `filteredResults` of `results.jsx`: `results.filter(applyFilters)`. -/
def filteredResults (filters : Filters α) (results : List (Place α)) :
    List (Place α) :=
  results.filter (applyFilters filters)

/-! ## The haversine formula, as the specification words it -/

/-- Degrees to radians. -/
def radians (M : MathFns α) (degrees : α) : α := degrees * M.pi / 180

/-- The haversine term of the specification:
`a = sin^2(dLat/2) + cos(lat1) * cos(lat2) * sin^2(dLon/2)`, angles in
radians. -/
def haversineA (M : MathFns α) (lat1 lon1 lat2 lon2 : α) : α :=
  M.sin (radians M (lat2 - lat1) / 2) ^ 2 +
    M.cos (radians M lat1) * M.cos (radians M lat2) *
      M.sin (radians M (lon2 - lon1) / 2) ^ 2

/-- The `Math` functions are the real ones: `Math.PI` is `π`, `Math.sin`,
`Math.cos` and `Math.sqrt` are the real sine, cosine and square root, and
`Math.atan2(y, x)` is the angle of the point `(x, y)` in `(-π, π]`.

This is the exact-real idealisation of the engine, whose `Math` functions
work on IEEE doubles and round. It is used only for results that the rounded
functions give as well (the distance of a point to itself, the scenario of the
specification, the exchange of the two points). It does not bound the
haversine term of the engine: in doubles the term can round above 1 for a
pair of antipodal points, where `Math.sqrt(1 - a)` is `NaN`; see
`calculateDistance_nan_of_gt_one`. -/
def IsRealMath (M : MathFns ℝ) : Prop :=
  M.pi = Real.pi ∧ M.sin = Real.sin ∧ M.cos = Real.cos ∧ M.sqrt = Real.sqrt ∧
    ∀ y x, M.atan2 y x = Complex.arg ⟨x, y⟩

/-- The place of the scenario of the specification: latitude 0, longitude
0.1 degrees, rating 4.5, 200 reviews, status `OPEN`. -/
def scenarioPlace (α : Type) [LinearOrderedField α] : Place α :=
  { business_id := "s1", name := "Scenario", rating := some (9 / 2),
    review_count := some 200, latitude := GeoField.number 0,
    longitude := GeoField.number (1 / 10), business_status := some "OPEN",
    distance := none, rankScore := none }

/-! ## RatingStore -/

/-- A row of the `ratings` table, with the columns the three routes name.
Times are counted in ticks of a clock. -/
structure RatingRow where
  id : Nat
  business_id : String
  business_name : String
  user_rating : ℚ
  user_review : Option String
  visited_date : Nat
  updated_at : Nat
  deriving DecidableEq, Repr

/-- The fields that `POST` reads from the JSON body; `none` is a field that
is missing or `null`. -/
structure RatingBody where
  businessId : Option String
  businessName : Option String
  rating : Option ℚ
  review : Option String
  deriving DecidableEq, Repr

/-- The statements a request sends to the database, in order. -/
inductive SqlStatement where
  | select (businessId : String)
  | update (rating : ℚ) (review : Option String) (businessId : String)
  | insert (businessId businessName : String) (rating : ℚ) (review : Option String)
  deriving DecidableEq, Repr

/-- What a `POST` leaves behind: the response (status, `error` or `rating`),
the table afterwards and the statements sent. -/
structure PostResult where
  status : Nat
  error : Option String
  rating : Option RatingRow
  table : List RatingRow
  statements : List SqlStatement
  deriving DecidableEq, Repr

/-- JavaScript `!s` for a string or missing field. -/
def notString : Option String → Bool
  | some s => s == ""
  | none => true

/-- JavaScript `!x` for a number or missing field. -/
def notNumber : Option ℚ → Bool
  | some x => x == 0
  | none => true

/-- JavaScript `review || null`: a missing or empty review becomes `null`. -/
def orNull : Option String → Option String
  | some s => if s == "" then none else some s
  | none => none

/-- The two validation tests of `POST`: the error message of the first one
that fires. -/
def validate (body : RatingBody) : Option String :=
  if notString body.businessId || notString body.businessName then
    some "Business ID and name are required"
  else if notNumber body.rating ||
      (match body.rating with
        | some r => decide (r < 1) || decide (r > 5)
        | none => false) then
    some "Rating must be between 1 and 5"
  else none

/-- `SELECT ... FROM ratings WHERE business_id = ...`. -/
def selectByBusiness (table : List RatingRow) (businessId : String) :
    List RatingRow :=
  table.filter (fun row => row.business_id == businessId)

/-- `UPDATE ratings SET user_rating, user_review, updated_at =
CURRENT_TIMESTAMP WHERE business_id = ...`, at time `now`. -/
def updateByBusiness (table : List RatingRow) (now : Nat) (businessId : String)
    (rating : ℚ) (review : Option String) : List RatingRow :=
  table.map fun row =>
    if row.business_id == businessId then
      { row with user_rating := rating, user_review := review, updated_at := now }
    else row

/-- Modelled from the spec: the schema of `ratings` is not in the source, so
the columns that the `INSERT` does not name take the values the specification
gives them: `visited_date` is the creation time; `updated_at` starts at the
creation time too and `id` is a fresh number. -/
def insertedRow (table : List RatingRow) (now : Nat) (businessId businessName : String)
    (rating : ℚ) (review : Option String) : RatingRow :=
  { id := table.length + 1, business_id := businessId, business_name := businessName,
    user_rating := rating, user_review := review, visited_date := now,
    updated_at := now }

/-- `POST` of `ratings/create/route.js` on the table `table` at time `now`,
the database answering every statement (the `catch` branch is not taken). -/
def POST (table : List RatingRow) (now : Nat) (body : RatingBody) : PostResult :=
  match validate body with
  | some message =>
    { status := 400, error := some message, rating := none, table := table,
      statements := [] }
  | none =>
    let businessId := body.businessId.getD ""
    let businessName := body.businessName.getD ""
    let rating := body.rating.getD 0
    let existingRating := (selectByBusiness table businessId).take 1
    if existingRating.length > 0 then
      let table' := updateByBusiness table now businessId rating (orNull body.review)
      let result := selectByBusiness table' businessId
      { status := 200, error := none, rating := result.head?, table := table',
        statements :=
          [SqlStatement.select businessId,
            SqlStatement.update rating (orNull body.review) businessId] }
    else
      let row := insertedRow table now businessId businessName rating (orNull body.review)
      { status := 200, error := none, rating := some row, table := table ++ [row],
        statements :=
          [SqlStatement.select businessId,
            SqlStatement.insert businessId businessName rating (orNull body.review)] }

/-- A sequence of `POST` requests, each with the time it is served at, run one
after the other; the table at the end. -/
def runPosts (table : List RatingRow) : List (Nat × RatingBody) → List RatingRow
  | [] => table
  | call :: rest => runPosts (POST table call.1 call.2).table rest

/-- The store holds at most one rating record per business identifier. -/
def AtMostOnePerBusiness (table : List RatingRow) : Prop :=
  ∀ businessId, (selectByBusiness table businessId).length ≤ 1

/-- A request body of the rating screen. -/
def sampleBody (rating : ℚ) (review : String) : RatingBody :=
  { businessId := some "b1", businessName := some "Cafe X", rating := some rating,
    review := some review }

/-- The body `sampleBody` with another display name for the same business. -/
def renamedBody (rating : ℚ) (review : String) : RatingBody :=
  { sampleBody rating review with businessName := some "Cafe Y" }

/-- The table after the first rating of business `b1`, at time 1. -/
def tableWithCafe : List RatingRow :=
  [{ id := 1, business_id := "b1", business_name := "Cafe X", user_rating := 4,
      user_review := some "Great", visited_date := 1, updated_at := 1 }]

/-! ## The get route -/

/-- What the get route answers: status, `error`, the `rating` member of the
body (`none` is `null`), the table afterwards and the statements sent. -/
structure GetResult where
  status : Nat
  error : Option String
  rating : Option RatingRow
  table : List RatingRow
  statements : List SqlStatement
  deriving DecidableEq, Repr

/-- `GET` of `ratings/get/route.js`; `businessId` is
`searchParams.get("businessId")`, `none` when the parameter is absent. -/
def RatingsGet.GET (table : List RatingRow) (businessId : Option String) : GetResult :=
  if notString businessId then
    { status := 400, error := some "Business ID is required", rating := none,
      table := table, statements := [] }
  else
    let result := (selectByBusiness table (businessId.getD "")).take 1
    if result.length = 0 then
      { status := 200, error := none, rating := none, table := table,
        statements := [SqlStatement.select (businessId.getD "")] }
    else
      { status := 200, error := none, rating := result.head?, table := table,
        statements := [SqlStatement.select (businessId.getD "")] }

/-! ## The list route -/

/-- White space that `parseInt` skips, by code point. -/
def isStrWhiteSpace (c : Char) : Bool :=
  [9, 10, 11, 12, 13, 32, 160, 5760, 8232, 8233, 8239, 8287, 12288, 65279].contains c.toNat ||
    (8192 ≤ c.toNat && c.toNat ≤ 8202)

/-- The value of a character as a digit, up to base 36. -/
def digitValue (c : Char) : Option Nat :=
  if 48 ≤ c.toNat ∧ c.toNat ≤ 57 then some (c.toNat - 48)
  else if 97 ≤ c.toNat ∧ c.toNat ≤ 122 then some (c.toNat - 87)
  else if 65 ≤ c.toNat ∧ c.toNat ≤ 90 then some (c.toNat - 55)
  else none

/-- The longest prefix of digits of the radix, as digit values. -/
def takeDigits (radix : Nat) : List Char → List Nat
  | [] => []
  | c :: cs =>
    match digitValue c with
    | some d => if d < radix then d :: takeDigits radix cs else []
    | none => []

/-- JavaScript `parseInt(s)` without a radix, on exact integers: leading white
space, an optional sign, an optional `0x` for base 16, then the longest prefix
of digits; `none` is `NaN`. -/
def parseInt (s : String) : Option Int :=
  let trimmed := s.toList.dropWhile isStrWhiteSpace
  let signed : Int × List Char :=
    match trimmed with
    | c :: cs => if c.toNat = 45 then (-1, cs) else if c.toNat = 43 then (1, cs) else (1, c :: cs)
    | [] => (1, [])
  let based : Nat × List Char :=
    match signed.2 with
    | c :: d :: cs =>
      if c.toNat = 48 ∧ (d.toNat = 120 ∨ d.toNat = 88) then (16, cs) else (10, c :: d :: cs)
    | cs => (10, cs)
  let digits := takeDigits based.1 based.2
  if digits = [] then none
  else some (signed.1 * (digits.foldl (fun acc d => acc * based.1 + d) 0 : Nat))

/-- JavaScript `param || fallback` for a string or `null` parameter. -/
def orDefault (param : Option String) (fallback : String) : String :=
  match param with
  | some s => if s == "" then fallback else s
  | none => fallback

/-- The `LIMIT` and `OFFSET` values of the statement the list route sends;
`none` is `NaN`. -/
structure PageQuery where
  limit : Option Int
  offset : Option Int
  deriving DecidableEq, Repr

/-- What the list route answers: status, `error` or `ratings`, the table
afterwards and the statements sent. -/
structure ListResult where
  status : Nat
  error : Option String
  ratings : Option (List RatingRow)
  table : List RatingRow
  statements : List PageQuery
  deriving DecidableEq, Repr

/-- `ORDER BY visited_date DESC`.  SQL leaves the order of rows with the same
`visited_date` open; the model keeps them in table order. -/
def orderByVisitedDesc (table : List RatingRow) : List RatingRow :=
  table.insertionSort fun a b => b.visited_date ≤ a.visited_date

/-- `SELECT * FROM ratings ORDER BY visited_date DESC LIMIT ... OFFSET ...`:
`none` when the statement throws.  What the database does with a `LIMIT` or
`OFFSET` that is negative or `NaN` is not in the source and is the parameter
`invalidPage`. -/
def selectPage
    (invalidPage : List RatingRow → PageQuery → Option (List RatingRow))
    (table : List RatingRow) (query : PageQuery) : Option (List RatingRow) :=
  match query.limit, query.offset with
  | some limit, some offset =>
    if 0 ≤ limit ∧ 0 ≤ offset then
      some (((orderByVisitedDesc table).drop offset.toNat).take limit.toNat)
    else invalidPage table query
  | _, _ => invalidPage table query

/-- `GET` of `ratings/list/route.js`; `limit` and `offset` are
`searchParams.get("limit")` and `searchParams.get("offset")`. -/
def RatingsList.GET
    (invalidPage : List RatingRow → PageQuery → Option (List RatingRow))
    (table : List RatingRow) (limit offset : Option String) : ListResult :=
  let limit := parseInt (orDefault limit "50")
  let offset := parseInt (orDefault offset "0")
  match selectPage invalidPage table { limit := limit, offset := offset } with
  | some result =>
    { status := 200, error := none, ratings := some result, table := table,
      statements := [{ limit := limit, offset := offset }] }
  | none =>
    { status := 500, error := some "Failed to fetch ratings", ratings := none,
      table := table, statements := [{ limit := limit, offset := offset }] }

/-- A database that throws on a `LIMIT` or `OFFSET` that is negative or
`NaN`. -/
def throwOnInvalidPage : List RatingRow → PageQuery → Option (List RatingRow) :=
  fun _ _ => none

/-! ## Two requests at once -/

/-- What a `POST` has decided after its validation and its `SELECT`, before it
writes. -/
inductive Pending where
  | rejected (message : String)
  | update (businessId : String) (rating : ℚ) (review : Option String)
  | insert (businessId businessName : String) (rating : ℚ) (review : Option String)
  deriving DecidableEq, Repr

/-- The first half of `POST`: the validation and the `SELECT`, on the table as
it is when the `SELECT` runs. -/
def POSTLookup (table : List RatingRow) (body : RatingBody) : Pending :=
  match validate body with
  | some message => Pending.rejected message
  | none =>
    let businessId := body.businessId.getD ""
    let existingRating := (selectByBusiness table businessId).take 1
    if existingRating.length > 0 then
      Pending.update businessId (body.rating.getD 0) (orNull body.review)
    else
      Pending.insert businessId (body.businessName.getD "") (body.rating.getD 0)
        (orNull body.review)

/-- The second half of `POST`: the `UPDATE` or the `INSERT` that was decided,
on the table as it is when the write runs; `none` when the statement throws.
Whether `business_id` carries a unique constraint is not in the source and is
the parameter `unique`: with it, an `INSERT` for a business that has a row
throws. -/
def POSTWrite (unique : Bool) (table : List RatingRow) (now : Nat) :
    Pending → Option (List RatingRow)
  | Pending.rejected _ => some table
  | Pending.update businessId rating review =>
    some (updateByBusiness table now businessId rating review)
  | Pending.insert businessId businessName rating review =>
    if unique && (selectByBusiness table businessId).length > 0 then none
    else some (table ++ [insertedRow table now businessId businessName rating review])

/-- Two requests `a` and `b` served at once, in the order lookup of `a`, lookup
of `b`, write of `a`, write of `b`; a write that throws leaves the table as it
is.  The table at the end. -/
def raceBothLookupsFirst (unique : Bool) (table : List RatingRow)
    (a b : Nat × RatingBody) : List RatingRow :=
  let pendingA := POSTLookup table a.2
  let pendingB := POSTLookup table b.2
  let afterA := (POSTWrite unique table a.1 pendingA).getD table
  (POSTWrite unique afterA b.1 pendingB).getD afterA

/-! ## The distance of the directions screen -/

/-- A coordinate pair of `directions.jsx`: the results of `parseFloat`. -/
structure Coordinates (α : Type) where
  latitude : JSNum α
  longitude : JSNum α

/-- `toRad` of `directions.jsx`. -/
def Directions.toRad (M : MathFns α) (value : JSNum α) : JSNum α :=
  divc (mul value (fin M.pi)) 180

/-- `calculateDistance` of `directions.jsx`, which reads `origin` and
`destination` from its scope. -/
def Directions.calculateDistance (M : MathFns α) (origin destination : Coordinates α) :
    JSNum α :=
  let R : JSNum α := fin 6371
  let dLat := Directions.toRad M (sub destination.latitude origin.latitude)
  let dLon := Directions.toRad M (sub destination.longitude origin.longitude)
  let a :=
    add (mul (mathSin M (divc dLat 2)) (mathSin M (divc dLat 2)))
      (mul (mul (mul (mathCos M (Directions.toRad M origin.latitude))
        (mathCos M (Directions.toRad M destination.latitude)))
        (mathSin M (divc dLon 2))) (mathSin M (divc dLon 2)))
  let c := mul (fin 2) (mathAtan2 M (mathSqrt M a) (mathSqrt M (sub (fin 1) a)))
  mul R c

/-! ## Facts about the score -/

theorem calculateRankScore_fin (r c d : α) :
    calculateRankScore (fin r) (fin c) (fin d) =
      fin ((r / 5) * 50 + min ((c / 100) * 30) 30 + max (20 - d * 2) 0) := rfl

theorem reviewScore_bounds (c : α) (hc : 0 ≤ c) :
    0 ≤ min ((c / 100) * 30) 30 ∧ min ((c / 100) * 30) 30 ≤ 30 := by
  refine ⟨le_min ?_ (by norm_num), min_le_right _ _⟩
  have : 0 ≤ c / 100 := div_nonneg hc (by norm_num)
  positivity

theorem distanceScore_bounds (d : α) (hd : 0 ≤ d) :
    0 ≤ max (20 - d * 2) 0 ∧ max (20 - d * 2) 0 ≤ 20 := by
  refine ⟨le_max_right _ _, max_le ?_ (by norm_num)⟩
  linarith

theorem ratingScore_bounds (r : α) (h0 : 0 ≤ r) (h5 : r ≤ 5) :
    0 ≤ (r / 5) * 50 ∧ (r / 5) * 50 ≤ 50 := by
  have e : (r / 5) * 50 = r * 10 := by ring
  rw [e]
  constructor <;> linarith

/-! ## Claims about the score -/

/-- C1: for every rating in [0, 5], every review count >= 0 and every
distance >= 0, `calculateRankScore` returns a number (not `NaN`) that lies in
the closed interval [0, 100]. -/
theorem calculateRankScore_range (rating reviewCount distance : α)
    (hr0 : 0 ≤ rating) (hr5 : rating ≤ 5) (hc : 0 ≤ reviewCount)
    (hd : 0 ≤ distance) :
    ∃ s, calculateRankScore (fin rating) (fin reviewCount) (fin distance) = fin s ∧
      0 ≤ s ∧ s ≤ 100 := by
  refine ⟨_, calculateRankScore_fin rating reviewCount distance, ?_, ?_⟩
  · have h1 := (ratingScore_bounds rating hr0 hr5).1
    have h2 := (reviewScore_bounds reviewCount hc).1
    have h3 := (distanceScore_bounds distance hd).1
    linarith
  · have h1 := (ratingScore_bounds rating hr0 hr5).2
    have h2 := (reviewScore_bounds reviewCount hc).2
    have h3 := (distanceScore_bounds distance hd).2
    linarith

theorem calculateRankScore_range_witness :
    ∃ s : ℚ, calculateRankScore (fin (9 / 2)) (fin 200) (fin 3) = fin s ∧
      0 ≤ s ∧ s ≤ 100 :=
  calculateRankScore_range (9 / 2) 200 3 (by norm_num) (by norm_num)
    (by norm_num) (by norm_num)

/-- C2: on numbers `calculateRankScore` is the sum of the three components of
the specification, `(rating / 5) * 50`, `min((reviewCount / 100) * 30, 30)` and
`max(20 - 2 * distance, 0)`; for valid inputs the components lie in [0, 50],
[0, 30] and [0, 20]; the review component is 30 from 100 reviews on and the
distance component is 0 from 10 km on. -/
theorem calculateRankScore_components :
    (∀ r c d : α, calculateRankScore (fin r) (fin c) (fin d) =
      fin (ratingComponent r + reviewComponent c + distanceComponent d)) ∧
    (∀ r : α, 0 ≤ r → r ≤ 5 → 0 ≤ ratingComponent r ∧ ratingComponent r ≤ 50) ∧
    (∀ c : α, 0 ≤ c → 0 ≤ reviewComponent c ∧ reviewComponent c ≤ 30) ∧
    (∀ d : α, 0 ≤ d → 0 ≤ distanceComponent d ∧ distanceComponent d ≤ 20) ∧
    (∀ c : α, 100 ≤ c → reviewComponent c = 30) ∧
    (∀ d : α, 10 ≤ d → distanceComponent d = 0) := by
  refine ⟨fun r c d => calculateRankScore_fin r c d, fun r h0 h5 => ratingScore_bounds r h0 h5,
    fun c hc => reviewScore_bounds c hc, fun d hd => distanceScore_bounds d hd, ?_, ?_⟩
  · intro c hc
    unfold reviewComponent
    apply min_eq_right
    have : (100 : α) / 100 * 30 ≤ c / 100 * 30 := by
      apply mul_le_mul_of_nonneg_right _ (by norm_num)
      exact div_le_div_of_nonneg_right hc (by norm_num)
    norm_num at this
    linarith
  · intro d hd
    unfold distanceComponent
    apply max_eq_right
    linarith

theorem calculateRankScore_components_witness :
    calculateRankScore (fin (9 / 2 : ℚ)) (fin 200) (fin 12) = fin 75 ∧
    (0 ≤ ratingComponent (9 / 2 : ℚ) ∧ ratingComponent (9 / 2 : ℚ) ≤ 50) ∧
    (0 ≤ reviewComponent (40 : ℚ) ∧ reviewComponent (40 : ℚ) ≤ 30) ∧
    (0 ≤ distanceComponent (3 : ℚ) ∧ distanceComponent (3 : ℚ) ≤ 20) ∧
    reviewComponent (200 : ℚ) = 30 ∧ distanceComponent (12 : ℚ) = 0 := by
  have h := @calculateRankScore_components ℚ _
  refine ⟨?_, h.2.1 _ (by norm_num) (by norm_num), h.2.2.1 _ (by norm_num),
    h.2.2.2.1 _ (by norm_num), h.2.2.2.2.1 _ (by norm_num),
    h.2.2.2.2.2 _ (by norm_num)⟩
  rw [h.1, h.2.2.2.2.1 _ (by norm_num), h.2.2.2.2.2 _ (by norm_num)]
  norm_num [ratingComponent]

/-- C3: `calculateRankScore` is monotonically non-decreasing in the rating:
for every review count and distance and every `r1 <= r2`, the score at `r1`
is `<=` the score at `r2`. -/
theorem calculateRankScore_mono_rating (r1 r2 reviewCount distance : α)
    (h : r1 ≤ r2) :
    le (calculateRankScore (fin r1) (fin reviewCount) (fin distance))
      (calculateRankScore (fin r2) (fin reviewCount) (fin distance)) = true := by
  rw [calculateRankScore_fin, calculateRankScore_fin]
  simp only [JSNum.le, decide_eq_true_eq]
  have : r1 / 5 * 50 ≤ r2 / 5 * 50 := by
    have e : ∀ x : α, x / 5 * 50 = x * 10 := fun x => by ring
    rw [e, e]
    linarith
  linarith

theorem calculateRankScore_mono_rating_witness :
    le (calculateRankScore (fin (3 : ℚ)) (fin 40) (fin 2))
      (calculateRankScore (fin (4 : ℚ)) (fin 40) (fin 2)) = true :=
  calculateRankScore_mono_rating 3 4 40 2 (by norm_num)

/-- C4: `calculateRankScore` is monotonically non-increasing in the distance:
for every rating and review count and every `d1 <= d2`, the score at `d1` is
`>=` the score at `d2`. -/
theorem calculateRankScore_anti_distance (rating reviewCount d1 d2 : α)
    (h : d1 ≤ d2) :
    ge (calculateRankScore (fin rating) (fin reviewCount) (fin d1))
      (calculateRankScore (fin rating) (fin reviewCount) (fin d2)) = true := by
  rw [calculateRankScore_fin, calculateRankScore_fin]
  simp only [JSNum.ge, JSNum.le, decide_eq_true_eq]
  have : max (20 - d2 * 2) 0 ≤ max (20 - d1 * 2) 0 :=
    max_le_max (by linarith) le_rfl
  linarith

theorem calculateRankScore_anti_distance_witness :
    ge (calculateRankScore (fin (4 : ℚ)) (fin 40) (fin 2))
      (calculateRankScore (fin (4 : ℚ)) (fin 40) (fin 7)) = true :=
  calculateRankScore_anti_distance 4 40 2 7 (by norm_num)

/-! ## Facts about the sort -/

section SortFacts

variable {β : Type} (comparefn : β → β → JSNum α)

/-- Where the binary search puts the pivot: the slice is cut in two, the
element before the cut, if any, was probed with `order >= 0` and the element
after it, if any, with `order < 0`. -/
theorem binaryInsert_spec (pivot : β) :
    ∀ (fuel : Nat) (work : List β), work.length < fuel →
      ∃ before after, work = before ++ after ∧
        binaryInsert comparefn pivot fuel work = before ++ pivot :: after ∧
        (∀ a ∈ before.getLast?, ¬ sortCompare comparefn pivot a < 0) ∧
        (∀ b ∈ after.head?, sortCompare comparefn pivot b < 0)
  | 0, work, h => absurd h (Nat.not_lt_zero _)
  | fuel + 1, work, h => by
    unfold binaryInsert
    cases hdrop : work.drop (work.length / 2) with
    | nil =>
      have hlen : work.length ≤ work.length / 2 := List.drop_eq_nil_iff.mp hdrop
      have hnil : work = [] := List.length_eq_zero.mp (by omega)
      subst hnil
      exact ⟨[], [], rfl, rfl, by simp, by simp⟩
    | cons atMid after =>
      have hsplit : work = work.take (work.length / 2) ++ atMid :: after := by
        rw [← hdrop, List.take_append_drop]
      have hlen := congrArg List.length hsplit
      simp only [List.length_append, List.length_cons] at hlen
      by_cases hord : sortCompare comparefn pivot atMid < 0
      · simp only [hord, if_true]
        obtain ⟨b1, a1, h1, h2, h3, h4⟩ :=
          binaryInsert_spec pivot fuel (work.take (work.length / 2)) (by omega)
        refine ⟨b1, a1 ++ atMid :: after, ?_, ?_, h3, ?_⟩
        · conv_lhs => rw [hsplit, h1]
          simp
        · rw [h2]
          simp
        · intro b hb
          cases a1 with
          | nil =>
            simp only [List.nil_append, List.head?_cons, Option.mem_def,
              Option.some.injEq] at hb
            rw [← hb]
            exact hord
          | cons x xs => exact h4 b (by simpa using hb)
      · simp only [hord, if_false]
        obtain ⟨b2, a2, h1, h2, h3, h4⟩ := binaryInsert_spec pivot fuel after (by omega)
        refine ⟨work.take (work.length / 2) ++ atMid :: b2, a2, ?_, ?_, ?_, h4⟩
        · conv_lhs => rw [hsplit, h1]
          simp
        · rw [h2]
          simp
        · intro a ha
          cases b2 with
          | nil =>
            simp at ha
            rw [← ha]
            exact hord
          | cons x xs =>
            have hne : x :: xs ≠ [] := List.cons_ne_nil _ _
            have : (work.take (work.length / 2) ++ atMid :: x :: xs).getLast? =
                (x :: xs).getLast? := by
              rw [show work.take (work.length / 2) ++ atMid :: x :: xs =
                (work.take (work.length / 2) ++ [atMid]) ++ (x :: xs) by simp]
              rw [List.getLast?_append]
              rw [List.getLast?_eq_getLast _ hne]
              rfl
            rw [this] at ha
            exact h3 a ha

theorem binaryInsert_perm (pivot : β) (fuel : Nat) (work : List β)
    (h : work.length < fuel) :
    (binaryInsert comparefn pivot fuel work).Perm (pivot :: work) := by
  obtain ⟨before, after, h1, h2, _, _⟩ := binaryInsert_spec comparefn pivot fuel work h
  rw [h2, h1]
  exact List.perm_middle

theorem binaryInsertionSort_perm (rest : List β) :
    ∀ run : List β, (binaryInsertionSort comparefn run rest).Perm (run ++ rest) := by
  induction rest with
  | nil => intro run; simp [binaryInsertionSort]
  | cons pivot rest ih =>
    intro run
    show (binaryInsertionSort comparefn
      (binaryInsert comparefn pivot (run.length + 1) run) rest).Perm _
    refine (ih _).trans ?_
    have hp := binaryInsert_perm comparefn pivot (run.length + 1) run (Nat.lt_succ_self _)
    refine (hp.append_right rest).trans ?_
    simp only [List.cons_append]
    exact (List.perm_middle).symm

theorem extendRun_append (isDescending : Bool) :
    ∀ (previous : β) (rest : List β),
      (extendRun comparefn isDescending previous rest).1 ++
        (extendRun comparefn isDescending previous rest).2 = rest
  | _, [] => rfl
  | previous, current :: rest => by
    unfold extendRun
    simp only
    split
    · rfl
    · simp only [List.cons_append, extendRun_append isDescending current rest]

theorem countAndMakeRun_perm :
    ∀ array : List β,
      ((countAndMakeRun comparefn array).1 ++ (countAndMakeRun comparefn array).2).Perm array
  | [] => List.Perm.refl _
  | [x] => List.Perm.refl _
  | elementHigh :: elementLow :: rest => by
    have happ := extendRun_append comparefn
      (decide (sortCompare comparefn elementLow elementHigh < 0)) elementLow rest
    simp only [countAndMakeRun]
    split
    · refine ((List.reverse_perm _).append_right _).trans ?_
      simp only [List.cons_append, happ]
      exact List.Perm.refl _
    · simp only [List.cons_append, happ]
      exact List.Perm.refl _

theorem arraySort_perm (array : List β) : (arraySort comparefn array).Perm array := by
  unfold arraySort
  split
  · exact List.Perm.refl _
  · exact (binaryInsertionSort_perm comparefn _ _).trans (countAndMakeRun_perm comparefn array)

/-- Binary insertion keeps every adjacent pair in order: no element compares
`< 0` with the element before it. -/
theorem binaryInsert_chain
    (anti : ∀ x y, sortCompare comparefn x y < 0 → ¬ sortCompare comparefn y x < 0)
    (pivot : β) (fuel : Nat) (work : List β) (h : work.length < fuel)
    (hc : List.Chain' (fun previous next => ¬ sortCompare comparefn next previous < 0) work) :
    List.Chain' (fun previous next => ¬ sortCompare comparefn next previous < 0)
      (binaryInsert comparefn pivot fuel work) := by
  obtain ⟨before, after, h1, h2, h3, h4⟩ := binaryInsert_spec comparefn pivot fuel work h
  rw [h1, List.chain'_append] at hc
  rw [h2, List.chain'_append]
  refine ⟨hc.1, List.chain'_cons'.mpr ⟨fun y hy => anti pivot y (h4 y hy), hc.2.1⟩, ?_⟩
  intro x hx y hy
  simp only [List.head?_cons, Option.mem_def, Option.some.injEq] at hy
  rw [← hy]
  exact h3 x hx

theorem binaryInsertionSort_chain
    (anti : ∀ x y, sortCompare comparefn x y < 0 → ¬ sortCompare comparefn y x < 0)
    (rest : List β) :
    ∀ run : List β,
      List.Chain' (fun previous next => ¬ sortCompare comparefn next previous < 0) run →
      List.Chain' (fun previous next => ¬ sortCompare comparefn next previous < 0)
        (binaryInsertionSort comparefn run rest) := by
  induction rest with
  | nil => intro run h; exact h
  | cons pivot rest ih =>
    intro run h
    exact ih _ (binaryInsert_chain comparefn anti pivot _ run (Nat.lt_succ_self _) h)

/-- The run that is counted is in run order: ascending, no element compares
`< 0` with the one before it; descending, every element does. -/
theorem extendRun_chain (isDescending : Bool) :
    ∀ (previous : β) (rest : List β),
      List.Chain'
        (fun previous next =>
          runBreaks isDescending (sortCompare comparefn next previous) = false)
        (previous :: (extendRun comparefn isDescending previous rest).1)
  | previous, [] => List.chain'_singleton _
  | previous, current :: rest => by
    unfold extendRun
    simp only
    by_cases hb : runBreaks isDescending (sortCompare comparefn current previous) = true
    · rw [if_pos hb]
      exact List.chain'_singleton _
    · rw [if_neg hb]
      exact List.Chain'.cons (by simpa using hb) (extendRun_chain isDescending current rest)

theorem countAndMakeRun_chain
    (anti : ∀ x y, sortCompare comparefn x y < 0 → ¬ sortCompare comparefn y x < 0) :
    ∀ array : List β,
      List.Chain' (fun previous next => ¬ sortCompare comparefn next previous < 0)
        (countAndMakeRun comparefn array).1
  | [] => List.chain'_nil
  | [x] => List.chain'_singleton _
  | elementHigh :: elementLow :: rest => by
    simp only [countAndMakeRun]
    by_cases hd : sortCompare comparefn elementLow elementHigh < 0
    · have hrun := extendRun_chain comparefn true elementLow rest
      simp only [hd, decide_True, if_true]
      rw [List.chain'_reverse]
      refine List.Chain'.cons ?_ (hrun.imp ?_)
      · exact anti _ _ hd
      · intro a b hab
        simp only [runBreaks, if_true, decide_eq_false_iff_not, ge_iff_le, not_le] at hab
        exact anti _ _ hab
    · have hrun := extendRun_chain comparefn false elementLow rest
      simp only [hd, decide_False, if_false]
      refine List.Chain'.cons hd (hrun.imp ?_)
      intro a b hab
      simpa [runBreaks] using hab

/-- The sort leaves every adjacent pair in order: no element compares `< 0`
with the element before it. -/
theorem arraySort_chain
    (anti : ∀ x y, sortCompare comparefn x y < 0 → ¬ sortCompare comparefn y x < 0)
    (array : List β) :
    List.Chain' (fun previous next => ¬ sortCompare comparefn next previous < 0)
      (arraySort comparefn array) := by
  unfold arraySort
  split
  · rename_i h
    cases array with
    | nil => exact List.chain'_nil
    | cons x xs =>
      cases xs with
      | nil => exact List.chain'_singleton _
      | cons y ys =>
        simp only [List.length_cons] at h
        omega
  · exact binaryInsertionSort_chain comparefn anti _ _ (countAndMakeRun_chain comparefn anti array)

/-- On a list in order the run is the whole list. -/
theorem extendRun_of_chain :
    ∀ (previous : β) (rest : List β),
      List.Chain' (fun previous next => ¬ sortCompare comparefn next previous < 0)
        (previous :: rest) →
      extendRun comparefn false previous rest = (rest, [])
  | _, [], _ => rfl
  | previous, current :: rest, h => by
    unfold extendRun
    have h1 : ¬ sortCompare comparefn current previous < 0 := h.rel_head
    have ih := extendRun_of_chain current rest h.tail
    simp [runBreaks, h1, ih]

/-- A list in order is left as it is: it is one ascending run. -/
theorem arraySort_eq_self (array : List β)
    (h : List.Chain' (fun previous next => ¬ sortCompare comparefn next previous < 0) array) :
    arraySort comparefn array = array := by
  unfold arraySort
  split
  · rfl
  · cases array with
    | nil => rfl
    | cons x xs =>
      cases xs with
      | nil => rfl
      | cons y ys =>
        have h1 : ¬ sortCompare comparefn y x < 0 := h.rel_head
        have h2 := extendRun_of_chain comparefn y ys h.tail
        simp [countAndMakeRun, h1, h2, binaryInsertionSort]

/-! ### Stability, for a comparator that orders by a key -/

/-- On elements that the comparator orders by `key`, a list in order is
non-increasing in `key`, pairwise. -/
theorem pairwise_key_of_chain (key : β → α) (l : List β)
    (hkey : ∀ x ∈ l, ∀ y ∈ l, sortCompare comparefn x y = key y - key x)
    (hc : List.Chain' (fun previous next => ¬ sortCompare comparefn next previous < 0) l) :
    l.Pairwise fun a b => key b ≤ key a := by
  haveI : IsTrans β (fun a b => key b ≤ key a) := ⟨fun _ _ _ hab hbc => le_trans hbc hab⟩
  rw [← List.chain'_iff_pairwise]
  rw [List.Chain'.iff_mem] at hc
  refine hc.imp ?_
  rintro a b ⟨ha, hb, hab⟩
  rw [hkey b hb a ha] at hab
  linarith [not_lt.mp hab]

/-- Binary insertion into a sorted part is stable: among the elements of one
key the pivot, which stood after the sorted part, comes last. -/
theorem filter_binaryInsert (key : β → α) (s : α) (pivot : β) (fuel : Nat)
    (work : List β) (h : work.length < fuel)
    (hkey : ∀ x ∈ pivot :: work, ∀ y ∈ pivot :: work,
      sortCompare comparefn x y = key y - key x)
    (hsorted : work.Pairwise fun a b => key b ≤ key a) :
    (binaryInsert comparefn pivot fuel work).filter (fun x => decide (key x = s)) =
      (work ++ [pivot]).filter (fun x => decide (key x = s)) := by
  obtain ⟨before, after, h1, h2, _, h4⟩ := binaryInsert_spec comparefn pivot fuel work h
  have hafter : ∀ b ∈ after, key b < key pivot := by
    cases after with
    | nil => intro b hb; cases hb
    | cons b0 rest =>
      have hb0 : b0 ∈ pivot :: work := by rw [h1]; simp
      have h0 := h4 b0 rfl
      rw [hkey pivot (List.mem_cons_self _ _) b0 hb0] at h0
      have hlt : key b0 < key pivot := by linarith
      intro b hb
      rcases List.mem_cons.mp hb with rfl | hb
      · exact hlt
      · rw [h1] at hsorted
        have hp := (List.pairwise_append.mp hsorted).2.1
        exact lt_of_le_of_lt (List.rel_of_pairwise_cons hp hb) hlt
  rw [h2, h1]
  simp only [List.filter_append, List.filter_cons, List.filter_nil, List.append_assoc]
  by_cases hp : key pivot = s
  · have hnil : after.filter (fun x => decide (key x = s)) = [] := by
      rw [List.filter_eq_nil_iff]
      intro b hb
      have := hafter b hb
      simp only [decide_eq_true_eq]
      intro hbs
      rw [hbs, hp] at this
      exact lt_irrefl _ this
    simp [hp, hnil]
  · simp [hp]

theorem filter_binaryInsertionSort
    (anti : ∀ x y, sortCompare comparefn x y < 0 → ¬ sortCompare comparefn y x < 0)
    (key : β → α) (s : α) (rest : List β) :
    ∀ run : List β,
      (∀ x ∈ run ++ rest, ∀ y ∈ run ++ rest, sortCompare comparefn x y = key y - key x) →
      List.Chain' (fun previous next => ¬ sortCompare comparefn next previous < 0) run →
      (binaryInsertionSort comparefn run rest).filter (fun x => decide (key x = s)) =
        (run ++ rest).filter (fun x => decide (key x = s)) := by
  induction rest with
  | nil => intro run _ _; simp [binaryInsertionSort]
  | cons pivot rest ih =>
    intro run hkey hc
    have hperm := binaryInsert_perm comparefn pivot (run.length + 1) run (Nat.lt_succ_self _)
    have hmem : ∀ x, x ∈ binaryInsert comparefn pivot (run.length + 1) run ++ rest →
        x ∈ run ++ pivot :: rest := by
      intro x hx
      rcases List.mem_append.mp hx with hx | hx
      · rcases List.mem_cons.mp (hperm.mem_iff.mp hx) with rfl | hx
        · simp
        · simp [hx]
      · simp [hx]
    have hkey1 : ∀ x ∈ pivot :: run, ∀ y ∈ pivot :: run,
        sortCompare comparefn x y = key y - key x := by
      intro x hx y hy
      refine hkey x ?_ y ?_
      · rcases List.mem_cons.mp hx with rfl | hx
        · simp
        · simp [hx]
      · rcases List.mem_cons.mp hy with rfl | hy
        · simp
        · simp [hy]
    have hsorted := pairwise_key_of_chain comparefn key run
      (fun x hx y hy => hkey1 x (List.mem_cons_of_mem _ hx) y (List.mem_cons_of_mem _ hy)) hc
    show (binaryInsertionSort comparefn
      (binaryInsert comparefn pivot (run.length + 1) run) rest).filter _ = _
    rw [ih _ (fun x hx y hy => hkey x (hmem x hx) y (hmem y hy))
      (binaryInsert_chain comparefn anti pivot _ run (Nat.lt_succ_self _) hc)]
    rw [List.filter_append,
      filter_binaryInsert comparefn key s pivot _ run (Nat.lt_succ_self _) hkey1 hsorted]
    rw [List.filter_append, List.filter_append, List.append_assoc, ← List.filter_append]
    rfl

/-- In a list of strictly increasing keys at most one element has a given
key. -/
theorem filter_key_length_le_one (key : β → α) (s : α) :
    ∀ l : List β, l.Pairwise (fun a b => key a < key b) →
      (l.filter (fun x => decide (key x = s))).length ≤ 1
  | [], _ => Nat.zero_le _
  | a :: t, h => by
    have ht := filter_key_length_le_one key s t (List.Pairwise.of_cons h)
    by_cases ha : key a = s
    · have hnil : t.filter (fun x => decide (key x = s)) = [] := by
        rw [List.filter_eq_nil_iff]
        intro b hb
        have := List.rel_of_pairwise_cons h hb
        simp only [decide_eq_true_eq]
        intro hbs
        rw [ha, hbs] at this
        exact lt_irrefl _ this
      simp [List.filter_cons, ha, hnil]
    · simpa [List.filter_cons, ha] using ht

/-- Making the first run keeps the order of the elements of one key: a run
that is reversed has strictly increasing keys. -/
theorem filter_countAndMakeRun (key : β → α) (s : α) :
    ∀ array : List β,
      (∀ x ∈ array, ∀ y ∈ array, sortCompare comparefn x y = key y - key x) →
      ((countAndMakeRun comparefn array).1 ++ (countAndMakeRun comparefn array).2).filter
          (fun x => decide (key x = s)) =
        array.filter (fun x => decide (key x = s))
  | [], _ => rfl
  | [x], _ => rfl
  | elementHigh :: elementLow :: rest, hkey => by
    have happ := extendRun_append comparefn
      (decide (sortCompare comparefn elementLow elementHigh < 0)) elementLow rest
    simp only [countAndMakeRun]
    by_cases hd : sortCompare comparefn elementLow elementHigh < 0
    · simp only [hd, decide_True, if_true] at happ ⊢
      have hrun := extendRun_chain comparefn true elementLow rest
      have hchain : List.Chain'
          (fun previous next => sortCompare comparefn next previous < 0)
          (elementHigh :: elementLow :: (extendRun comparefn true elementLow rest).1) := by
        refine List.Chain'.cons hd (hrun.imp ?_)
        intro a b hab
        simpa [runBreaks] using hab
      have hsub : ∀ x, x ∈ elementHigh :: elementLow ::
          (extendRun comparefn true elementLow rest).1 →
          x ∈ elementHigh :: elementLow :: rest := by
        intro x hx
        rw [← happ]
        simp only [List.mem_cons, List.mem_append] at hx ⊢
        tauto
      have hpair : (elementHigh :: elementLow ::
          (extendRun comparefn true elementLow rest).1).Pairwise
          (fun a b => key a < key b) := by
        haveI : IsTrans β (fun a b => key a < key b) := ⟨fun _ _ _ hab hbc => lt_trans hab hbc⟩
        rw [← List.chain'_iff_pairwise]
        rw [List.Chain'.iff_mem] at hchain
        refine hchain.imp ?_
        rintro a b ⟨ha, hb, hab⟩
        rw [hkey b (hsub b hb) a (hsub a ha)] at hab
        linarith
      have hlen := filter_key_length_le_one key s _ hpair
      have hrev : (elementHigh :: elementLow ::
          (extendRun comparefn true elementLow rest).1).reverse.filter
            (fun x => decide (key x = s)) =
          (elementHigh :: elementLow ::
            (extendRun comparefn true elementLow rest).1).filter
            (fun x => decide (key x = s)) := by
        rw [List.filter_reverse]
        generalize (elementHigh :: elementLow ::
          (extendRun comparefn true elementLow rest).1).filter
            (fun x => decide (key x = s)) = m at hlen
        match m, hlen with
        | [], _ => rfl
        | [_], _ => rfl
        | _ :: _ :: _, h => simp at h
      rw [List.filter_append, hrev, ← List.filter_append]
      simp only [List.cons_append, happ]
    · simp only [hd, decide_False, if_false, Bool.false_eq_true] at happ ⊢
      rw [show elementHigh :: elementLow :: (extendRun comparefn false elementLow rest).1 ++
          (extendRun comparefn false elementLow rest).2 =
        elementHigh :: elementLow :: ((extendRun comparefn false elementLow rest).1 ++
          (extendRun comparefn false elementLow rest).2) from rfl, happ]

/-- The sort is stable on a list that the comparator orders by a key: the
elements of one key keep their order. -/
theorem filter_arraySort
    (anti : ∀ x y, sortCompare comparefn x y < 0 → ¬ sortCompare comparefn y x < 0)
    (key : β → α) (s : α) (array : List β)
    (hkey : ∀ x ∈ array, ∀ y ∈ array, sortCompare comparefn x y = key y - key x) :
    (arraySort comparefn array).filter (fun x => decide (key x = s)) =
      array.filter (fun x => decide (key x = s)) := by
  unfold arraySort
  split
  · rfl
  · have hperm := countAndMakeRun_perm comparefn array
    rw [filter_binaryInsertionSort comparefn anti key s _ _
      (fun x hx y hy => hkey x (hperm.mem_iff.mp hx) y (hperm.mem_iff.mp hy))
      (countAndMakeRun_chain comparefn anti array)]
    exact filter_countAndMakeRun comparefn key s array hkey

end SortFacts

/-! ## Facts about the ranking step -/

theorem lift2_nan_left {γ : Type} (f : γ → γ → γ) (y : JSNum γ) :
    lift2 f nan y = nan := by
  cases y <;> rfl

theorem lift2_nan_right {γ : Type} (f : γ → γ → γ) (x : JSNum γ) :
    lift2 f x nan = nan := by
  cases x <;> rfl

/-- A `NaN` target latitude makes the distance `NaN`. -/
theorem calculateDistance_nan_lat (M : MathFns α) (lat1 lon1 lon2 : JSNum α) :
    calculateDistance M lat1 lon1 nan lon2 = nan := by
  simp [calculateDistance, toRad, mathSin, mathCos, mathSqrt, mathAtan2, JSNum.add,
    JSNum.sub, JSNum.mul, JSNum.divc, lift1, lift2_nan_left, lift2_nan_right]

/-- A `NaN` target longitude makes the distance `NaN`. -/
theorem calculateDistance_nan_lon (M : MathFns α) (lat1 lon1 lat2 : JSNum α) :
    calculateDistance M lat1 lon1 lat2 nan = nan := by
  simp [calculateDistance, toRad, mathSin, mathCos, mathSqrt, mathAtan2, JSNum.add,
    JSNum.sub, JSNum.mul, JSNum.divc, lift1, lift2_nan_left, lift2_nan_right]

/-- A `NaN` distance makes the score `NaN`. -/
theorem calculateRankScore_nan_distance (rating reviewCount : JSNum α) :
    calculateRankScore rating reviewCount nan = nan := by
  simp [calculateRankScore, JSNum.add, JSNum.sub, JSNum.mul, JSNum.jsMax,
    lift2_nan_left, lift2_nan_right]

/-- A record whose latitude or longitude key is absent gets distance `NaN` and
score `NaN`. -/
theorem rankEntry_missing (M : MathFns α) (lat lon : JSNum α) (p : Place α)
    (h : p.latitude = GeoField.undefined ∨ p.longitude = GeoField.undefined) :
    rankEntry M lat lon p = { p with distance := some nan, rankScore := some nan } := by
  have hd : calculateDistance M lat lon (toNumber p.latitude) (toNumber p.longitude) =
      nan := by
    rcases h with h | h
    · rw [h]; exact calculateDistance_nan_lat M lat lon _
    · rw [h]; exact calculateDistance_nan_lon M lat lon _
  simp only [rankEntry, hd, calculateRankScore_nan_distance]

/-- A `null` latitude or longitude is read as 0: the record gets the distance
and the score of the same record with the number 0 in that field. -/
theorem rankEntry_null (M : MathFns α) (lat lon : JSNum α) (p : Place α) :
    (p.latitude = GeoField.null →
      (rankEntry M lat lon p).distance =
          (rankEntry M lat lon { p with latitude := GeoField.number 0 }).distance ∧
        (rankEntry M lat lon p).rankScore =
          (rankEntry M lat lon { p with latitude := GeoField.number 0 }).rankScore) ∧
    (p.longitude = GeoField.null →
      (rankEntry M lat lon p).distance =
          (rankEntry M lat lon { p with longitude := GeoField.number 0 }).distance ∧
        (rankEntry M lat lon p).rankScore =
          (rankEntry M lat lon { p with longitude := GeoField.number 0 }).rankScore) := by
  constructor <;> intro h <;> simp [rankEntry, h, toNumber]

/-- `v || 0` is the value of `v`, with a missing value read as 0. -/
theorem orZero_eq_getD (v : Option α) : orZero v = fin (v.getD 0) := by
  cases v with
  | none => rfl
  | some x =>
    by_cases h : x = 0
    · simp [orZero, h]
    · simp [orZero, h]

/-- The callback of `.map` reads only provider fields, so applying it twice is
applying it once. -/
theorem rankEntry_rankEntry (M : MathFns α) (lat lon : JSNum α) (p : Place α) :
    rankEntry M lat lon (rankEntry M lat lon p) = rankEntry M lat lon p := rfl

theorem sortCompare_compareRank_fin (a b : Place α) (sa sb : α)
    (ha : a.rankScore = some (fin sa)) (hb : b.rankScore = some (fin sb)) :
    sortCompare compareRank a b = sb - sa := by
  simp [sortCompare, compareRank, ha, hb, readNum, JSNum.sub, lift2]

theorem sortCompare_compareRank_nan_left (a b : Place α)
    (ha : readNum a.rankScore = nan) : sortCompare compareRank a b = 0 := by
  simp [sortCompare, compareRank, ha, JSNum.sub, lift2_nan_right]

theorem sortCompare_compareRank_nan_right (a b : Place α)
    (hb : readNum b.rankScore = nan) : sortCompare compareRank a b = 0 := by
  simp [sortCompare, compareRank, hb, JSNum.sub, lift2_nan_left]

/-- Two records with the same `rankScore` compare as equal. -/
theorem sortCompare_compareRank_eq (a b : Place α) (h : a.rankScore = b.rankScore) :
    sortCompare compareRank a b = 0 := by
  cases hb : readNum b.rankScore with
  | nan => exact sortCompare_compareRank_nan_right a b hb
  | fin s =>
    have ha : readNum a.rankScore = fin s := by rw [h]; exact hb
    simp [sortCompare, compareRank, ha, hb, JSNum.sub, lift2]

/-- The comparator never puts two records strictly before one another. -/
theorem compareRank_anti (a b : Place α) (h : sortCompare compareRank a b < 0) :
    ¬ sortCompare compareRank b a < 0 := by
  cases ha : readNum a.rankScore with
  | nan =>
    rw [sortCompare_compareRank_nan_left a b ha] at h
    exact absurd h (lt_irrefl _)
  | fin sa =>
    cases hb : readNum b.rankScore with
    | nan =>
      rw [sortCompare_compareRank_nan_right a b hb] at h
      exact absurd h (lt_irrefl _)
    | fin sb =>
      have e1 : sortCompare compareRank a b = sb - sa := by
        simp [sortCompare, compareRank, ha, hb, JSNum.sub, lift2]
      have e2 : sortCompare compareRank b a = sa - sb := by
        simp [sortCompare, compareRank, ha, hb, JSNum.sub, lift2]
      rw [e1] at h
      rw [e2]
      linarith

/-- On records whose scores are numbers the comparator orders by the score. -/
theorem sortCompare_compareRank_key (a b : Place α) (ha : readNum a.rankScore ≠ nan)
    (hb : readNum b.rankScore ≠ nan) :
    sortCompare compareRank a b = rankKey b - rankKey a := by
  cases ha' : readNum a.rankScore with
  | nan => exact absurd ha' ha
  | fin sa =>
    cases hb' : readNum b.rankScore with
    | nan => exact absurd hb' hb
    | fin sb => simp [sortCompare, compareRank, rankKey, ha', hb', JSNum.sub, lift2]

/-- On records whose scores are numbers, run order is `>=` on the scores. -/
theorem ge_of_not_lt (a b : Place α) (ha : readNum a.rankScore ≠ nan)
    (hb : readNum b.rankScore ≠ nan) (h : ¬ sortCompare compareRank b a < 0) :
    ge (readNum a.rankScore) (readNum b.rankScore) = true := by
  cases ha' : readNum a.rankScore with
  | nan => exact absurd ha' ha
  | fin sa =>
    cases hb' : readNum b.rankScore with
    | nan => exact absurd hb' hb
    | fin sb =>
      have e1 : sortCompare compareRank b a = sa - sb := by
        simp [sortCompare, compareRank, ha', hb', JSNum.sub, lift2]
      rw [e1] at h
      simp only [JSNum.ge, JSNum.le, decide_eq_true_eq]
      linarith [not_lt.mp h]

/-- A list that is non-increasing by `rankScore` is in run order. -/
theorem not_lt_of_ge (a b : Place α)
    (h : ge (readNum a.rankScore) (readNum b.rankScore) = true) :
    ¬ sortCompare compareRank b a < 0 := by
  cases ha' : readNum a.rankScore with
  | nan => rw [ha'] at h; cases hb : readNum b.rankScore <;> simp [hb, JSNum.ge, JSNum.le] at h
  | fin sa =>
    cases hb' : readNum b.rankScore with
    | nan => rw [ha', hb'] at h; simp [JSNum.ge, JSNum.le] at h
    | fin sb =>
      rw [ha', hb'] at h
      simp only [JSNum.ge, JSNum.le, decide_eq_true_eq] at h
      have e1 : sortCompare compareRank b a = sa - sb := by
        simp [sortCompare, compareRank, ha', hb', JSNum.sub, lift2]
      rw [e1]
      linarith

/-- The ranked list is the annotated provider list, reordered. -/
theorem rankResults_perm (M : MathFns α) (lat lon : JSNum α) (data : List (Place α)) :
    (rankResults M lat lon data).Perm (data.map (rankEntry M lat lon)) := by
  unfold rankResults
  split
  · exact arraySort_perm compareRank _
  · rename_i h
    have : data = [] := by
      cases data with
      | nil => rfl
      | cons x xs => exact absurd (Nat.succ_pos _) h
    rw [this]
    exact List.Perm.refl _

theorem rankResults_eq_arraySort (M : MathFns α) (lat lon : JSNum α)
    (data : List (Place α)) :
    rankResults M lat lon data =
      arraySort compareRank (data.map (rankEntry M lat lon)) := by
  unfold rankResults
  split
  · rfl
  · rename_i h
    have : data = [] := by
      cases data with
      | nil => rfl
      | cons x xs => exact absurd (Nat.succ_pos _) h
    rw [this]
    rfl

theorem rankEntry_sample_noCoords :
    rankEntry sampleMath (fin 0) (fin 0) placeNoCoords =
      { placeNoCoords with distance := some nan, rankScore := some nan } :=
  rankEntry_missing sampleMath (fin 0) (fin 0) placeNoCoords (Or.inl rfl)

theorem rankEntry_sample_origin :
    rankEntry sampleMath (fin 0) (fin 0) placeAtOrigin =
      { placeAtOrigin with distance := some (fin 0), rankScore := some (fin 62) } := by
  simp [rankEntry, placeAtOrigin, calculateDistance, calculateRankScore, sampleMath,
    toRad, toNumber, orZero, mathSin, mathCos, mathSqrt, mathAtan2, JSNum.add, JSNum.sub,
    JSNum.mul, JSNum.divc, JSNum.jsMin, JSNum.jsMax, lift1, lift2]
  norm_num

/-- A record at the origin with a rating and no review count, ranked from the
origin: distance 0 and score `rating * 10 + 20`. -/
theorem rankEntry_placeRated (businessId : String) (rating : ℚ) :
    rankEntry sampleMath (fin 0) (fin 0) (placeRated businessId rating) =
      { placeRated businessId rating with
        distance := some (fin 0)
        rankScore := some (fin (rating * 10 + 20)) } := by
  have hd : calculateDistance sampleMath (fin 0) (fin 0) (fin 0) (fin 0) = fin 0 := by
    norm_num [calculateDistance, sampleMath, toRad, mathSin, mathCos, mathSqrt, mathAtan2,
      JSNum.add, JSNum.sub, JSNum.mul, JSNum.divc, lift1, lift2]
  simp only [rankEntry, placeRated, toNumber, hd, orZero_eq_getD, calculateRankScore_fin]
  congr 3
  norm_num
  ring

/-- When every computed score is a number, so is the score of every ranked
record. -/
theorem rankResults_numeric (M : MathFns α) (lat lon : JSNum α) (data : List (Place α))
    (hnum : ∀ p ∈ data, readNum (rankEntry M lat lon p).rankScore ≠ nan) :
    ∀ a ∈ rankResults M lat lon data, readNum a.rankScore ≠ nan := by
  intro a ha
  rw [(rankResults_perm M lat lon data).mem_iff, List.mem_map] at ha
  obtain ⟨p, hp, rfl⟩ := ha
  exact hnum p hp

/-- The ranked list of `stabilityData`, record by record. -/
theorem rankResults_stabilityData :
    (rankResults sampleMath (fin 0) (fin 0) stabilityData).map Place.business_id =
      ["p5", "p6", "p0", "p1", "p2", "p3", "p4"] := by
  have h3 : rankEntry sampleMath (fin 0) (fin 0) { placeNoCoords with business_id := "p3" } =
      { placeNoCoords with
        business_id := "p3"
        distance := some nan
        rankScore := some nan } :=
    rankEntry_missing sampleMath (fin 0) (fin 0) _ (Or.inl rfl)
  simp only [rankResults, stabilityData, List.map_cons, List.map_nil, rankEntry_placeRated, h3]
  norm_num [arraySort, countAndMakeRun, extendRun, runBreaks, binaryInsertionSort,
    binaryInsert, sortCompare, compareRank, readNum, JSNum.sub, lift2, placeRated,
    placeNoCoords]

/-! ## Claims about the ranking step -/

/-- C5, as stated, fails: ranking a record without coordinates together with
a record at the origin leaves a list that is not non-increasing by
`rankScore`, the score of the first record being `NaN`. -/
theorem rankResults_not_sorted_nan :
    ¬ SortedByRank
      (rankResults sampleMath (fin 0) (fin 0) [placeNoCoords, placeAtOrigin]) := by
  have e : rankResults sampleMath (fin 0) (fin 0) [placeNoCoords, placeAtOrigin] =
      [{ placeNoCoords with distance := some nan, rankScore := some nan },
       { placeAtOrigin with distance := some (fin 0), rankScore := some (fin 62) }] := by
    simp [rankResults, rankEntry_sample_noCoords, rankEntry_sample_origin, arraySort,
      countAndMakeRun, extendRun, binaryInsertionSort, sortCompare, compareRank, readNum,
      JSNum.sub, lift2]
  rw [e]
  simp [SortedByRank, readNum, JSNum.ge, JSNum.le]

/-- C5, amended: when the `rankScore` computed for every record of the
provider list is a number (not `NaN`), the list produced by the ranking step
is sorted non-increasing by `rankScore`: each element's `rankScore` is `>=`
that of the element that follows it. -/
theorem rankResults_sorted (M : MathFns α) (lat lon : JSNum α) (data : List (Place α))
    (hnum : ∀ p ∈ data, readNum (rankEntry M lat lon p).rankScore ≠ nan) :
    SortedByRank (rankResults M lat lon data) := by
  have hmem : ∀ a ∈ rankResults M lat lon data, readNum a.rankScore ≠ nan := by
    intro a ha
    rw [(rankResults_perm M lat lon data).mem_iff, List.mem_map] at ha
    obtain ⟨p, hp, rfl⟩ := ha
    exact hnum p hp
  have hc := arraySort_chain compareRank compareRank_anti
    (data.map (rankEntry M lat lon))
  rw [← rankResults_eq_arraySort, List.Chain'.iff_mem] at hc
  exact hc.imp fun a b h => ge_of_not_lt a b (hmem a h.1) (hmem b h.2.1) h.2.2

theorem rankResults_sorted_witness :
    SortedByRank
      (rankResults sampleMath (fin 0) (fin 0) [placeAtOrigin, placeAtOriginTwin]) :=
  rankResults_sorted sampleMath (fin 0) (fin 0) [placeAtOrigin, placeAtOriginTwin]
    (by
      intro p hp
      have e : (rankEntry sampleMath (fin 0) (fin 0) p).rankScore = some (fin 62) := by
        simp only [List.mem_cons, List.mem_singleton, List.not_mem_nil, or_false] at hp
        rcases hp with rfl | rfl
        · rw [rankEntry_sample_origin]
        · exact congrArg Place.rankScore rankEntry_sample_origin
      rw [e]
      simp [readNum])

/-- C6: ranking is idempotent on every provider list whose computed scores are
numbers (not `NaN`), where the order of the result does not depend on the
engine: applying the ranking step to its own output with the same origin gives
the same list, that is the same records in the same order with the same
`distance` and `rankScore`. -/
theorem rankResults_idempotent (M : MathFns α) (lat lon : JSNum α)
    (data : List (Place α))
    (hnum : ∀ p ∈ data, readNum (rankEntry M lat lon p).rankScore ≠ nan) :
    rankResults M lat lon (rankResults M lat lon data) = rankResults M lat lon data := by
  have hmap : (rankResults M lat lon data).map (rankEntry M lat lon) =
      rankResults M lat lon data := by
    conv_rhs => rw [← List.map_id (rankResults M lat lon data)]
    apply List.map_congr_left
    intro a ha
    rw [(rankResults_perm M lat lon data).mem_iff, List.mem_map] at ha
    obtain ⟨p, _, rfl⟩ := ha
    exact rankEntry_rankEntry M lat lon p
  have hmem := rankResults_numeric M lat lon data hnum
  have hsorted : SortedByRank (rankResults M lat lon data) := by
    have hc := arraySort_chain compareRank compareRank_anti
      (data.map (rankEntry M lat lon))
    rw [← rankResults_eq_arraySort, List.Chain'.iff_mem] at hc
    exact hc.imp fun a b h => ge_of_not_lt a b (hmem a h.1) (hmem b h.2.1) h.2.2
  rw [rankResults_eq_arraySort M lat lon (rankResults M lat lon data), hmap]
  exact arraySort_eq_self compareRank _ (hsorted.imp fun a b h => not_lt_of_ge a b h)

theorem rankResults_idempotent_witness :
    rankResults sampleMath (fin 0) (fin 0)
        (rankResults sampleMath (fin 0) (fin 0) [placeRated "p0" 1, placeRated "p1" 3]) =
      rankResults sampleMath (fin 0) (fin 0) [placeRated "p0" 1, placeRated "p1" 3] :=
  rankResults_idempotent sampleMath (fin 0) (fin 0) [placeRated "p0" 1, placeRated "p1" 3]
    (by
      intro p hp
      simp only [List.mem_cons, List.mem_singleton, List.not_mem_nil, or_false] at hp
      rcases hp with rfl | rfl <;> simp [rankEntry_placeRated, readNum])

/-- C7, as stated, fails: in `stabilityData` the records `p4` and `p6` get the
same `rankScore` 40 and `p4` comes first, yet with the record `p3`, whose score
is `NaN`, in the list, the ranked output has `p6` before `p4`. -/
theorem rankResults_unstable_nan :
    (rankEntry sampleMath (fin 0) (fin 0) (placeRated "p4" 2)).rankScore = some (fin 40) ∧
      (rankEntry sampleMath (fin 0) (fin 0) (placeRated "p6" 2)).rankScore = some (fin 40) ∧
      stabilityData.map Place.business_id = ["p0", "p1", "p2", "p3", "p4", "p5", "p6"] ∧
      (rankResults sampleMath (fin 0) (fin 0) stabilityData).map Place.business_id =
        ["p5", "p6", "p0", "p1", "p2", "p3", "p4"] := by
  refine ⟨?_, ?_, rfl, rankResults_stabilityData⟩
  · rw [rankEntry_placeRated]
    norm_num
  · rw [rankEntry_placeRated]
    norm_num

/-- C7, amended: on every provider list whose computed scores are numbers (not
`NaN`) the ranking sort is stable: two records of the provider list that get
the same `rankScore` appear in the ranked output in the relative order they
have in the provider list. -/
theorem rankResults_stable (M : MathFns α) (lat lon : JSNum α) (data : List (Place α))
    (p q : Place α) (hpq : List.Sublist [p, q] data)
    (heq : (rankEntry M lat lon p).rankScore = (rankEntry M lat lon q).rankScore)
    (hnum : ∀ p ∈ data, readNum (rankEntry M lat lon p).rankScore ≠ nan) :
    List.Sublist [rankEntry M lat lon p, rankEntry M lat lon q]
      (rankResults M lat lon data) := by
  have hkey : ∀ x ∈ data.map (rankEntry M lat lon), ∀ y ∈ data.map (rankEntry M lat lon),
      sortCompare compareRank x y = rankKey y - rankKey x := by
    intro x hx y hy
    obtain ⟨a, ha, rfl⟩ := List.mem_map.mp hx
    obtain ⟨b, hb, rfl⟩ := List.mem_map.mp hy
    exact sortCompare_compareRank_key _ _ (hnum a ha) (hnum b hb)
  have hsub : List.Sublist [rankEntry M lat lon p, rankEntry M lat lon q]
      (data.map (rankEntry M lat lon)) := hpq.map (rankEntry M lat lon)
  have hf := hsub.filter (fun x => decide (rankKey x = rankKey (rankEntry M lat lon q)))
  have hpk : rankKey (rankEntry M lat lon p) = rankKey (rankEntry M lat lon q) := by
    unfold rankKey
    rw [heq]
  have hfp : [rankEntry M lat lon p, rankEntry M lat lon q].filter
      (fun x => decide (rankKey x = rankKey (rankEntry M lat lon q))) =
      [rankEntry M lat lon p, rankEntry M lat lon q] := by
    simp [List.filter_cons, hpk]
  rw [hfp, ← filter_arraySort compareRank compareRank_anti rankKey _ _ hkey,
    ← rankResults_eq_arraySort] at hf
  exact hf.trans (List.filter_sublist _)

theorem rankResults_stable_witness :
    List.Sublist
      [rankEntry sampleMath (fin 0) (fin 0) placeAtOrigin,
        rankEntry sampleMath (fin 0) (fin 0) placeAtOriginTwin]
      (rankResults sampleMath (fin 0) (fin 0) [placeAtOrigin, placeAtOriginTwin]) :=
  rankResults_stable sampleMath (fin 0) (fin 0) [placeAtOrigin, placeAtOriginTwin]
    placeAtOrigin placeAtOriginTwin (List.Sublist.refl _) rfl
    (by
      intro p hp
      have e : (rankEntry sampleMath (fin 0) (fin 0) p).rankScore = some (fin 62) := by
        simp only [List.mem_cons, List.mem_singleton, List.not_mem_nil, or_false] at hp
        rcases hp with rfl | rfl
        · rw [rankEntry_sample_origin]
        · exact congrArg Place.rankScore rankEntry_sample_origin
      rw [e]
      simp [readNum])

/-- C8, as stated, fails: the ranking step does not drop a record without
coordinates; the ranked output of a list holding one such record holds that
record, with `distance` and `rankScore` both `NaN`. -/
theorem rankResults_keeps_noCoords :
    rankResults sampleMath (fin 0) (fin 0) [placeNoCoords] =
      [{ placeNoCoords with distance := some nan, rankScore := some nan }] := by
  simp [rankResults, rankEntry_sample_noCoords, arraySort]

/-- C8, amended: a record lacking coordinates is not excluded: the ranked
output holds exactly one ranked record for each record of the provider list,
with or without coordinates, none left out and none added. -/
theorem rankResults_keeps_all (M : MathFns α) (lat lon : JSNum α)
    (data : List (Place α)) :
    (rankResults M lat lon data).length = data.length ∧
    (rankResults M lat lon data).Perm (data.map (rankEntry M lat lon)) ∧
    (∀ p ∈ data, rankEntry M lat lon p ∈ rankResults M lat lon data) ∧
    (∀ r ∈ rankResults M lat lon data, ∃ p ∈ data, r = rankEntry M lat lon p) := by
  have hperm := rankResults_perm M lat lon data
  refine ⟨by rw [hperm.length_eq, List.length_map], hperm, ?_, ?_⟩
  · intro p hp
    rw [hperm.mem_iff]
    exact List.mem_map_of_mem _ hp
  · intro r hr
    rw [hperm.mem_iff, List.mem_map] at hr
    obtain ⟨p, hp, rfl⟩ := hr
    exact ⟨p, hp, rfl⟩

theorem rankResults_keeps_all_witness :
    rankEntry sampleMath (fin 0) (fin 0) placeNoCoords ∈
      rankResults sampleMath (fin 0) (fin 0) [placeAtOrigin, placeNoCoords] :=
  (rankResults_keeps_all sampleMath (fin 0) (fin 0) [placeAtOrigin, placeNoCoords]).2.2.1
    placeNoCoords (by simp)

/-! ## Facts about the filter -/

/-- The JavaScript `>=` on scores is transitive. -/
theorem ge_trans_rank (a b c : JSNum α) (hab : ge a b = true) (hbc : ge b c = true) :
    ge a c = true := by
  cases a with
  | nan => cases b <;> simp [JSNum.ge, JSNum.le] at hab
  | fin x =>
    cases b with
    | nan => simp [JSNum.ge, JSNum.le] at hab
    | fin y =>
      cases c with
      | nan => simp [JSNum.ge, JSNum.le] at hbc
      | fin z =>
        simp only [JSNum.ge, JSNum.le, decide_eq_true_eq] at hab hbc ⊢
        exact le_trans hbc hab

/-- A sublist of a list that is non-increasing by `rankScore` is
non-increasing by `rankScore`. -/
theorem SortedByRank.sublist {l₁ l₂ : List (Place α)} (h : SortedByRank l₂)
    (hs : List.Sublist l₁ l₂) : SortedByRank l₁ := by
  haveI : IsTrans (Place α)
      (fun a b => ge (readNum a.rankScore) (readNum b.rankScore) = true) :=
    ⟨fun a b c hab hbc => ge_trans_rank _ _ _ hab hbc⟩
  exact List.Chain'.sublist h hs

/-! ## Claims about the filter -/

/-- C9: for every ranked result whose rating, when present, is not negative,
and every filter criteria, `applyFilters` returns false exactly when the rating
(absent read as 0) is `<` `minRating`, or `openNow` is set and the status is
not `OPEN`, or the distance is `>` `maxDistance`; it returns true in every
other case. -/
theorem applyFilters_spec (filters : Filters α) (result : Place α)
    (hrating : ∀ x, result.rating = some x → 0 ≤ x) :
    (applyFilters filters result = false ↔
      (result.rating.getD 0 < filters.minRating ∨
        (filters.openNow = true ∧ result.business_status ≠ some "OPEN") ∨
        gt (readNum result.distance) (fin filters.maxDistance) = true)) ∧
    (applyFilters filters result = true ↔
      ¬ (result.rating.getD 0 < filters.minRating ∨
        (filters.openNow = true ∧ result.business_status ≠ some "OPEN") ∨
        gt (readNum result.distance) (fin filters.maxDistance) = true)) := by
  have h0 : 0 ≤ result.rating.getD 0 := by
    cases hr : result.rating with
    | none => exact le_rfl
    | some x => exact hrating x hr
  have key : (filters.minRating > 0 ∧ result.rating.getD 0 < filters.minRating) ↔
      result.rating.getD 0 < filters.minRating :=
    ⟨fun h => h.2, fun h => ⟨lt_of_le_of_lt h0 h, h⟩⟩
  have hf : applyFilters filters result = false ↔
      (result.rating.getD 0 < filters.minRating ∨
        (filters.openNow = true ∧ result.business_status ≠ some "OPEN") ∨
        gt (readNum result.distance) (fin filters.maxDistance) = true) := by
    rw [← key]
    unfold applyFilters
    rw [orZero_eq_getD]
    simp only [JSNum.lt, Bool.and_eq_true, decide_eq_true_eq, bne_iff_ne, ne_eq]
    split_ifs <;> simp_all
  refine ⟨hf, ?_⟩
  rw [← hf]
  cases applyFilters filters result <;> simp

theorem applyFilters_spec_witness :
    (applyFilters defaultFilters rankedFar = false ↔
      (rankedFar.rating.getD 0 < defaultFilters.minRating ∨
        (defaultFilters.openNow = true ∧ rankedFar.business_status ≠ some "OPEN") ∨
        gt (readNum rankedFar.distance) (fin defaultFilters.maxDistance) = true)) ∧
    (applyFilters defaultFilters rankedFar = true ↔
      ¬ (rankedFar.rating.getD 0 < defaultFilters.minRating ∨
        (defaultFilters.openNow = true ∧ rankedFar.business_status ≠ some "OPEN") ∨
        gt (readNum rankedFar.distance) (fin defaultFilters.maxDistance) = true)) :=
  applyFilters_spec defaultFilters rankedFar (by simp [rankedFar])

/-- C10: filtering never reorders: `filteredResults` is a subsequence of the
ranked list, it holds exactly the elements for which `applyFilters` is true,
each as often as the ranked list does, and it is sorted non-increasing by
`rankScore` when the ranked list is. -/
theorem filteredResults_subsequence (filters : Filters α) (results : List (Place α)) :
    List.Sublist (filteredResults filters results) results ∧
    (∀ r, r ∈ filteredResults filters results ↔
      r ∈ results ∧ applyFilters filters r = true) ∧
    (∀ r, applyFilters filters r = true →
      (filteredResults filters results).count r = results.count r) ∧
    (SortedByRank results → SortedByRank (filteredResults filters results)) := by
  refine ⟨List.filter_sublist _, fun r => List.mem_filter, ?_, ?_⟩
  · intro r hr
    unfold filteredResults
    rw [List.count_filter hr]
  · intro h
    exact h.sublist (List.filter_sublist _)

theorem filteredResults_subsequence_witness :
    SortedByRank (filteredResults defaultFilters [rankedNear, rankedFar]) ∧
    (filteredResults defaultFilters [rankedNear, rankedFar]).count rankedNear =
      [rankedNear, rankedFar].count rankedNear :=
  ⟨(filteredResults_subsequence defaultFilters [rankedNear, rankedFar]).2.2.2
      (by norm_num [SortedByRank, rankedNear, rankedFar, readNum, JSNum.ge, JSNum.le]),
    (filteredResults_subsequence defaultFilters [rankedNear, rankedFar]).2.2.1 rankedNear
      (by norm_num [applyFilters, defaultFilters, rankedNear, orZero, readNum, JSNum.gt,
        JSNum.lt])⟩

/-! ## Facts about the distance -/

/-- On numbers the distance is a function of the haversine term. -/
theorem calculateDistance_fin (M : MathFns α) (lat1 lon1 lat2 lon2 : α) :
    calculateDistance M (fin lat1) (fin lon1) (fin lat2) (fin lon2) =
      mul (fin 6371) (mul (fin 2)
        (mathAtan2 M (mathSqrt M (fin (haversineA M lat1 lon1 lat2 lon2)))
          (mathSqrt M (fin (1 - haversineA M lat1 lon1 lat2 lon2))))) := by
  have h : M.sin ((lat2 - lat1) * M.pi / 180 / 2) * M.sin ((lat2 - lat1) * M.pi / 180 / 2) +
      M.cos (lat1 * M.pi / 180) * M.cos (lat2 * M.pi / 180) *
        M.sin ((lon2 - lon1) * M.pi / 180 / 2) * M.sin ((lon2 - lon1) * M.pi / 180 / 2) =
      haversineA M lat1 lon1 lat2 lon2 := by
    unfold haversineA radians
    ring
  rw [← h]
  rfl

/-- When the haversine term lies in [0, 1] both square roots are numbers and
so is the distance. -/
theorem calculateDistance_of_unit (M : MathFns α) (lat1 lon1 lat2 lon2 : α)
    (h0 : 0 ≤ haversineA M lat1 lon1 lat2 lon2)
    (h1 : haversineA M lat1 lon1 lat2 lon2 ≤ 1) :
    calculateDistance M (fin lat1) (fin lon1) (fin lat2) (fin lon2) =
      fin (6371 * (2 * M.atan2 (M.sqrt (haversineA M lat1 lon1 lat2 lon2))
        (M.sqrt (1 - haversineA M lat1 lon1 lat2 lon2)))) := by
  rw [calculateDistance_fin]
  have h0' : ¬ haversineA M lat1 lon1 lat2 lon2 < 0 := not_lt.mpr h0
  have h1' : ¬ 1 - haversineA M lat1 lon1 lat2 lon2 < 0 := not_lt.mpr (by linarith)
  simp only [mathSqrt, if_neg h0', if_neg h1', mathAtan2, JSNum.mul, lift2]

/-- The code does not clamp the haversine term: whatever the `Math` functions
are, when the term they give exceeds 1 the argument of the second
`Math.sqrt` is negative and the distance is `NaN`. -/
theorem calculateDistance_nan_of_gt_one (M : MathFns α) (lat1 lon1 lat2 lon2 : α)
    (h : 1 < haversineA M lat1 lon1 lat2 lon2) :
    calculateDistance M (fin lat1) (fin lon1) (fin lat2) (fin lon2) = nan := by
  rw [calculateDistance_fin]
  have h0 : ¬ haversineA M lat1 lon1 lat2 lon2 < 0 := not_lt.mpr (by linarith)
  have h1 : 1 - haversineA M lat1 lon1 lat2 lon2 < 0 := by linarith
  simp only [mathSqrt, if_neg h0, if_pos h1, mathAtan2, JSNum.mul, lift2]

/-- The haversine term does not change when the two points are exchanged. -/
theorem haversineA_comm (M : MathFns ℝ) (hM : IsRealMath M) (lat1 lon1 lat2 lon2 : ℝ) :
    haversineA M lat1 lon1 lat2 lon2 = haversineA M lat2 lon2 lat1 lon1 := by
  obtain ⟨_, hsin, _, _, _⟩ := hM
  have e1 : radians M (lat1 - lat2) / 2 = -(radians M (lat2 - lat1) / 2) := by
    unfold radians; ring
  have e2 : radians M (lon1 - lon2) / 2 = -(radians M (lon2 - lon1) / 2) := by
    unfold radians; ring
  unfold haversineA
  rw [e1, e2, hsin, Real.sin_neg, Real.sin_neg]
  ring

/-- For latitudes in [-90, 90] the haversine term lies in [0, 1]. -/
theorem haversineA_unit (M : MathFns ℝ) (hM : IsRealMath M) (lat1 lon1 lat2 lon2 : ℝ)
    (h1 : -90 ≤ lat1 ∧ lat1 ≤ 90) (h2 : -90 ≤ lat2 ∧ lat2 ≤ 90) :
    0 ≤ haversineA M lat1 lon1 lat2 lon2 ∧ haversineA M lat1 lon1 lat2 lon2 ≤ 1 := by
  obtain ⟨hpi, hsin, hcos, _, _⟩ := hM
  have hpos := Real.pi_pos
  have c1 : 0 ≤ Real.cos (radians M lat1) := by
    apply Real.cos_nonneg_of_neg_pi_div_two_le_of_le <;>
      · unfold radians; rw [hpi]; nlinarith [h1.1, h1.2]
  have c2 : 0 ≤ Real.cos (radians M lat2) := by
    apply Real.cos_nonneg_of_neg_pi_div_two_le_of_le <;>
      · unfold radians; rw [hpi]; nlinarith [h2.1, h2.2]
  have cc : 0 ≤ Real.cos (radians M lat1) * Real.cos (radians M lat2) := mul_nonneg c1 c2
  have sv0 : 0 ≤ Real.sin (radians M (lon2 - lon1) / 2) ^ 2 := sq_nonneg _
  have sv1 : Real.sin (radians M (lon2 - lon1) / 2) ^ 2 ≤ 1 := Real.sin_sq_le_one _
  have su0 : 0 ≤ Real.sin (radians M (lat2 - lat1) / 2) ^ 2 := sq_nonneg _
  have hu : radians M lat2 - radians M lat1 = 2 * (radians M (lat2 - lat1) / 2) := by
    unfold radians; ring
  have hcos2 : Real.cos (radians M lat2 - radians M lat1) =
      1 - 2 * Real.sin (radians M (lat2 - lat1) / 2) ^ 2 := by
    rw [hu, Real.cos_two_mul, Real.cos_sq']
    ring
  have hsub := Real.cos_sub (radians M lat2) (radians M lat1)
  have hadd := Real.cos_add (radians M lat2) (radians M lat1)
  have hle := Real.cos_le_one (radians M lat2 + radians M lat1)
  have hprod : Real.cos (radians M lat1) * Real.cos (radians M lat2) *
      Real.sin (radians M (lon2 - lon1) / 2) ^ 2 ≤
      Real.cos (radians M lat1) * Real.cos (radians M lat2) :=
    mul_le_of_le_one_right cc sv1
  unfold haversineA
  rw [hsin, hcos]
  constructor
  · have := mul_nonneg cc sv0
    linarith
  · nlinarith

theorem complexArg_unit (a : ℝ) (h0 : 0 ≤ a) (h1 : a ≤ 1) :
    Complex.arg ⟨Real.sqrt (1 - a), Real.sqrt a⟩ = Real.arcsin (Real.sqrt a) := by
  have habs : Complex.abs ⟨Real.sqrt (1 - a), Real.sqrt a⟩ = 1 := by
    rw [Complex.abs_apply, Complex.normSq_mk, ← sq, ← sq, Real.sq_sqrt (by linarith),
      Real.sq_sqrt h0]
    norm_num
  rw [Complex.arg_of_re_nonneg (Real.sqrt_nonneg _), habs]
  simp

/-- A `NaN` origin latitude makes the distance `NaN`. -/
theorem calculateDistance_nan_lat1 (M : MathFns α) (lon1 lat2 lon2 : JSNum α) :
    calculateDistance M nan lon1 lat2 lon2 = nan := by
  simp [calculateDistance, toRad, mathSin, mathCos, mathSqrt, mathAtan2, JSNum.add,
    JSNum.sub, JSNum.mul, JSNum.divc, lift1, lift2_nan_left, lift2_nan_right]

/-- A `NaN` origin longitude makes the distance `NaN`. -/
theorem calculateDistance_nan_lon1 (M : MathFns α) (lat1 lat2 lon2 : JSNum α) :
    calculateDistance M lat1 nan lat2 lon2 = nan := by
  simp [calculateDistance, toRad, mathSin, mathCos, mathSqrt, mathAtan2, JSNum.add,
    JSNum.sub, JSNum.mul, JSNum.divc, lift1, lift2_nan_left, lift2_nan_right]

/-- The real functions are an instance of `IsRealMath`. -/
theorem isRealMath_mk :
    IsRealMath
      (MathFns.mk Real.pi Real.sin Real.cos Real.sqrt fun y x => Complex.arg ⟨x, y⟩) :=
  ⟨rfl, rfl, rfl, rfl, fun _ _ => rfl⟩

/-- With the real functions and latitudes in [-90, 90] the distance is the
number `6371 * (2 * arcsin (sqrt a))`, `a` the haversine term. -/
theorem calculateDistance_real (M : MathFns ℝ) (hM : IsRealMath M)
    (lat1 lon1 lat2 lon2 : ℝ) (h1 : -90 ≤ lat1 ∧ lat1 ≤ 90)
    (h2 : -90 ≤ lat2 ∧ lat2 ≤ 90) :
    calculateDistance M (fin lat1) (fin lon1) (fin lat2) (fin lon2) =
      fin (6371 * (2 * Real.arcsin (Real.sqrt (haversineA M lat1 lon1 lat2 lon2)))) := by
  obtain ⟨hA0, hA1⟩ := haversineA_unit M hM lat1 lon1 lat2 lon2 h1 h2
  rw [calculateDistance_of_unit M lat1 lon1 lat2 lon2 hA0 hA1]
  obtain ⟨_, _, _, hsqrt, hatan⟩ := hM
  rw [hatan, hsqrt, complexArg_unit _ hA0 hA1]

/-! ## Claims about the distance -/

/-- C11: `calculateDistance` is symmetric: with the real `Math` functions,
`calculateDistance(lat1, lon1, lat2, lon2)` equals
`calculateDistance(lat2, lon2, lat1, lon1)` for all arguments. -/
theorem calculateDistance_symm (M : MathFns ℝ) (hM : IsRealMath M)
    (lat1 lon1 lat2 lon2 : JSNum ℝ) :
    calculateDistance M lat1 lon1 lat2 lon2 = calculateDistance M lat2 lon2 lat1 lon1 := by
  cases lat1 with
  | nan => rw [calculateDistance_nan_lat1, calculateDistance_nan_lat]
  | fin a =>
    cases lon1 with
    | nan => rw [calculateDistance_nan_lon1, calculateDistance_nan_lon]
    | fin b =>
      cases lat2 with
      | nan => rw [calculateDistance_nan_lat1, calculateDistance_nan_lat]
      | fin c =>
        cases lon2 with
        | nan => rw [calculateDistance_nan_lon1, calculateDistance_nan_lon]
        | fin d =>
          rw [calculateDistance_fin, calculateDistance_fin, haversineA_comm M hM a b c d]

theorem calculateDistance_symm_witness :
    calculateDistance
        (MathFns.mk Real.pi Real.sin Real.cos Real.sqrt fun y x => Complex.arg ⟨x, y⟩)
        (fin 0) (fin 0) (fin 1) (fin 2) =
      calculateDistance
        (MathFns.mk Real.pi Real.sin Real.cos Real.sqrt fun y x => Complex.arg ⟨x, y⟩)
        (fin 1) (fin 2) (fin 0) (fin 0) :=
  calculateDistance_symm _ isRealMath_mk (fin 0) (fin 0) (fin 1) (fin 2)

/-- C12: with the real `Math` functions, for every coordinate `(lat, lon)`,
`calculateDistance(lat, lon, lat, lon)` is 0. -/
theorem calculateDistance_self (M : MathFns ℝ) (hM : IsRealMath M) (lat lon : ℝ) :
    calculateDistance M (fin lat) (fin lon) (fin lat) (fin lon) = fin 0 := by
  have hA : haversineA M lat lon lat lon = 0 := by
    obtain ⟨_, hsin, _, _, _⟩ := hM
    simp [haversineA, radians, hsin]
  rw [calculateDistance_of_unit M lat lon lat lon (by rw [hA]) (by rw [hA]; norm_num), hA]
  obtain ⟨_, _, _, hsqrt, hatan⟩ := hM
  rw [hatan, hsqrt, complexArg_unit 0 le_rfl zero_le_one]
  simp

theorem calculateDistance_self_witness :
    calculateDistance
        (MathFns.mk Real.pi Real.sin Real.cos Real.sqrt fun y x => Complex.arg ⟨x, y⟩)
        (fin 12) (fin 34) (fin 12) (fin 34) = fin 0 :=
  calculateDistance_self _ isRealMath_mk 12 34

/-- The distance of the scenario: from (0, 0) to latitude 0, longitude 0.1
degrees it is `6371 * π / 1800`. -/
theorem scenario_distance (M : MathFns ℝ) (hM : IsRealMath M) :
    calculateDistance M (fin 0) (fin 0) (fin 0) (fin (1 / 10)) =
      fin (6371 * Real.pi / 1800) := by
  have hpos := Real.pi_pos
  have hA : haversineA M 0 0 0 (1 / 10) = Real.sin (Real.pi / 3600) ^ 2 := by
    obtain ⟨hpi, hsin, hcos, _, _⟩ := hM
    have e : (1 / 10 - 0) * Real.pi / 180 / 2 = Real.pi / 3600 := by ring
    simp only [haversineA, radians, hpi, hsin, hcos, e]
    simp
  have hs : 0 ≤ Real.sin (Real.pi / 3600) :=
    Real.sin_nonneg_of_nonneg_of_le_pi (by positivity) (by linarith)
  rw [calculateDistance_real M hM 0 (0 : ℝ) 0 (1 / 10) (by norm_num) (by norm_num), hA,
    Real.sqrt_sq hs, Real.arcsin_sin (by linarith) (by linarith)]
  congr 1
  ring

/-- C15: the scenario of the specification, with the real `Math` functions:
from origin (0, 0) to the place at latitude 0, longitude 0.1 degrees, with
rating 4.5, 200 reviews and status `OPEN`, `calculateDistance` is a number
between 11.1 and 11.2, hence greater than 10; the `rankScore` that the ranking
step computes is exactly 75; and `applyFilters` with `maxDistance = 10`
returns false. -/
theorem scenario_rank (M : MathFns ℝ) (hM : IsRealMath M) :
    (∃ d, calculateDistance M (fin 0) (fin 0) (fin 0) (fin (1 / 10)) = fin d ∧
      10 < d ∧ 111 / 10 < d ∧ d < 112 / 10) ∧
    (rankEntry M (fin 0) (fin 0) (scenarioPlace ℝ)).rankScore = some (fin 75) ∧
    ∀ minRating openNow,
      applyFilters (Filters.mk minRating openNow 10)
        (rankEntry M (fin 0) (fin 0) (scenarioPlace ℝ)) = false := by
  have hd := scenario_distance M hM
  have hlo := Real.pi_gt_d2
  have hhi := Real.pi_lt_d2
  norm_num at hlo hhi
  have h10 : (10 : ℝ) < 6371 * Real.pi / 1800 := by linarith
  refine ⟨⟨_, hd, h10, by linarith, by linarith⟩, ?_, ?_⟩
  · have hmax : max (20 - 6371 * Real.pi / 1800 * 2) 0 = 0 :=
      max_eq_right (by linarith)
    simp only [rankEntry, scenarioPlace, toNumber, hd, orZero]
    norm_num [calculateRankScore_fin, hmax]
  · intro minRating openNow
    have hgt : gt (fin (6371 * Real.pi / 1800)) (fin (10 : ℝ)) = true := by
      simp only [JSNum.gt, JSNum.lt, decide_eq_true_eq]
      exact h10
    simp only [rankEntry, scenarioPlace, toNumber, hd]
    simp [applyFilters, readNum, hgt]

theorem scenario_rank_witness :
    (rankEntry
        (MathFns.mk Real.pi Real.sin Real.cos Real.sqrt fun y x => Complex.arg ⟨x, y⟩)
        (fin 0) (fin 0) (scenarioPlace ℝ)).rankScore = some (fin 75) :=
  (scenario_rank _ isRealMath_mk).2.1

/-- C16: in the ranking step a missing rating, respectively a missing review
count, is treated as 0 before scoring: the record gets exactly the `rankScore`
it gets with rating 0, respectively review count 0; and the `rankScore` of a
ranked record is always set, never `null` or `undefined`. -/
theorem rankEntry_missing_as_zero (M : MathFns α) (lat lon : JSNum α) (p : Place α) :
    (p.rating = none →
      (rankEntry M lat lon p).rankScore =
        (rankEntry M lat lon { p with rating := some 0 }).rankScore) ∧
    (p.review_count = none →
      (rankEntry M lat lon p).rankScore =
        (rankEntry M lat lon { p with review_count := some 0 }).rankScore) ∧
    (rankEntry M lat lon p).rankScore =
      some (calculateRankScore (fin (p.rating.getD 0)) (fin (p.review_count.getD 0))
        (readNum (rankEntry M lat lon p).distance)) := by
  refine ⟨?_, ?_, ?_⟩
  · intro h
    simp [rankEntry, h, orZero]
  · intro h
    simp [rankEntry, h, orZero]
  · simp [rankEntry, orZero_eq_getD, readNum]

theorem rankEntry_missing_as_zero_witness :
    (rankEntry sampleMath (fin 0) (fin 0) { placeAtOrigin with rating := none }).rankScore =
      (rankEntry sampleMath (fin 0) (fin 0)
        { placeAtOrigin with rating := some 0 }).rankScore :=
  (rankEntry_missing_as_zero sampleMath (fin 0) (fin 0)
    { placeAtOrigin with rating := none }).1 rfl

/-! ## Facts about the rating store -/

/-- A body passes both validation tests exactly when the two identifiers are
non-empty strings and the rating is a number from 1 to 5. -/
theorem validate_eq_none_iff (body : RatingBody) :
    validate body = none ↔
      ∃ b n r, body.businessId = some b ∧ b ≠ "" ∧ body.businessName = some n ∧ n ≠ "" ∧
        body.rating = some r ∧ 1 ≤ r ∧ r ≤ 5 := by
  obtain ⟨bid, bname, rating, review⟩ := body
  constructor
  · intro h
    cases bid with
    | none => simp [validate, notString] at h
    | some b =>
      cases bname with
      | none => simp [validate, notString] at h
      | some n =>
        cases rating with
        | none =>
          simp only [validate, notString, notNumber] at h
          split_ifs at h with h1 h2
          exact absurd rfl h2
        | some r =>
          simp only [validate, notString, notNumber, Bool.or_eq_true, beq_iff_eq,
            decide_eq_true_eq] at h
          split_ifs at h with h1 h2
          refine ⟨b, n, r, rfl, fun hb => h1 (Or.inl hb), rfl, fun hn => h1 (Or.inr hn), rfl,
            ?_, ?_⟩
          · exact not_lt.mp fun hr => h2 (Or.inr (Or.inl hr))
          · exact not_lt.mp fun hr => h2 (Or.inr (Or.inr hr))
  · rintro ⟨b, n, r, hb, hb', hn, hn', hr, h1, h5⟩
    simp only at hb hn hr
    subst hb hn hr
    have hr0 : r ≠ 0 := by
      intro h0
      rw [h0] at h1
      norm_num at h1
    simp [validate, notString, notNumber, hb', hn', hr0, not_lt.mpr h1, not_lt.mpr h5]

/-- A request that fails validation is answered 400 and sends no statement. -/
theorem POST_of_invalid (table : List RatingRow) (now : Nat) (body : RatingBody)
    (message : String) (h : validate body = some message) :
    POST table now body =
      { status := 400, error := some message, rating := none, table := table,
        statements := [] } := by
  simp [POST, h]

/-- A valid request for a business that has a row updates. -/
theorem POST_of_existing (table : List RatingRow) (now : Nat) (body : RatingBody)
    (h : validate body = none)
    (hex : selectByBusiness table (body.businessId.getD "") ≠ []) :
    (POST table now body).table =
      updateByBusiness table now (body.businessId.getD "") (body.rating.getD 0)
        (orNull body.review) := by
  have hlen : ((selectByBusiness table (body.businessId.getD "")).take 1).length > 0 := by
    cases hs : selectByBusiness table (body.businessId.getD "") with
    | nil => exact absurd hs hex
    | cons x xs => simp
  simp only [POST, h, if_pos hlen]

/-- A valid request for a business that has no row inserts. -/
theorem POST_of_absent (table : List RatingRow) (now : Nat) (body : RatingBody)
    (h : validate body = none)
    (hex : selectByBusiness table (body.businessId.getD "") = []) :
    (POST table now body).table =
      table ++ [insertedRow table now (body.businessId.getD "") (body.businessName.getD "")
        (body.rating.getD 0) (orNull body.review)] := by
  simp [POST, h, hex]

theorem selectByBusiness_cons (row : RatingRow) (rows : List RatingRow) (b : String) :
    selectByBusiness (row :: rows) b =
      if row.business_id = b then row :: selectByBusiness rows b
      else selectByBusiness rows b := by
  simp [selectByBusiness, List.filter_cons]

theorem updateByBusiness_cons (row : RatingRow) (rows : List RatingRow) (now : Nat)
    (b : String) (rating : ℚ) (review : Option String) :
    updateByBusiness (row :: rows) now b rating review =
      (if row.business_id = b then
        { row with user_rating := rating, user_review := review, updated_at := now }
      else row) :: updateByBusiness rows now b rating review := by
  simp [updateByBusiness]

/-- The rows of a business after an update: the rows it had, each with the new
rating, review and update time, when it is the updated business; the rows it
had, unchanged, when it is another. -/
theorem selectByBusiness_update (table : List RatingRow) (now : Nat) (b b' : String)
    (rating : ℚ) (review : Option String) :
    selectByBusiness (updateByBusiness table now b rating review) b' =
      if b' = b then
        (selectByBusiness table b').map fun row =>
          { row with user_rating := rating, user_review := review, updated_at := now }
      else selectByBusiness table b' := by
  induction table with
  | nil => simp [selectByBusiness, updateByBusiness]
  | cons row rows ih =>
    rw [updateByBusiness_cons, selectByBusiness_cons, selectByBusiness_cons, ih]
    by_cases hb : b' = b
    · subst hb
      by_cases hr : row.business_id = b'
      · simp [hr]
      · simp [hr]
    · by_cases hr : row.business_id = b
      · have hr' : ¬ b = b' := fun h => hb h.symm
        simp [hr, hr', hb]
      · simp [hr, hb]

/-- The rows of a business after a row is appended. -/
theorem selectByBusiness_append_row (table : List RatingRow) (row : RatingRow)
    (b : String) :
    selectByBusiness (table ++ [row]) b =
      selectByBusiness table b ++ (if row.business_id = b then [row] else []) := by
  by_cases h : row.business_id = b
  · simp [selectByBusiness, List.filter_append, List.filter_cons, h]
  · simp [selectByBusiness, List.filter_append, List.filter_cons, h]

/-- A valid request names its business, rating and both identifiers. -/
theorem validate_fields (body : RatingBody) (b : String)
    (hb : body.businessId = some b) (h : validate body = none) :
    body.businessId.getD "" = b ∧ some (body.rating.getD 0) = body.rating := by
  obtain ⟨b', n, r, hb', _, _, _, hr, _, _⟩ := (validate_eq_none_iff body).mp h
  rw [hb, hr]
  exact ⟨rfl, rfl⟩

/-- Once a business has its single row, every further valid request for it
keeps a single row, with the creation time it had and the rating and review
of the latest request. -/
theorem runPosts_existing (b : String) :
    ∀ (rest : List (Nat × RatingBody)) (table : List RatingRow) (row0 : RatingRow)
      (prev : Nat × RatingBody),
      selectByBusiness table b = [row0] →
      some row0.user_rating = prev.2.rating →
      row0.user_review = orNull prev.2.review →
      (∀ c ∈ rest, c.2.businessId = some b ∧ validate c.2 = none) →
      ∃ row, selectByBusiness (runPosts table rest) b = [row] ∧
        row.visited_date = row0.visited_date ∧
        some row.user_rating =
          ((prev :: rest).getLast (List.cons_ne_nil prev rest)).2.rating ∧
        row.user_review =
          orNull ((prev :: rest).getLast (List.cons_ne_nil prev rest)).2.review
  | [], table, row0, prev, hsel, hr, hv, _ => ⟨row0, hsel, rfl, hr, hv⟩
  | c :: rest, table, row0, prev, hsel, _, _, hall => by
    obtain ⟨hcb, hcv⟩ := hall c (List.mem_cons_self _ _)
    obtain ⟨hbid, hrat⟩ := validate_fields c.2 b hcb hcv
    have hex : selectByBusiness table (c.2.businessId.getD "") ≠ [] := by
      rw [hbid, hsel]
      exact List.cons_ne_nil _ _
    have htable := POST_of_existing table c.1 c.2 hcv hex
    rw [hbid] at htable
    have hsel' : selectByBusiness (POST table c.1 c.2).table b =
        [{ row0 with
            user_rating := (c.2.rating.getD 0)
            user_review := (orNull c.2.review)
            updated_at := c.1 }] := by
      rw [htable, selectByBusiness_update, if_pos rfl, hsel]
      rfl
    obtain ⟨row, h1, h2, h3, h4⟩ :=
      runPosts_existing b rest (POST table c.1 c.2).table _ c hsel' hrat rfl
        (fun c' hc' => hall c' (List.mem_cons_of_mem _ hc'))
    refine ⟨row, h1, h2, ?_, ?_⟩
    · rw [List.getLast_cons_cons]
      exact h3
    · rw [List.getLast_cons_cons]
      exact h4

/-- A valid request is answered 200 and its first statement is the lookup of
the business. -/
theorem POST_of_valid (table : List RatingRow) (now : Nat) (body : RatingBody)
    (h : validate body = none) :
    (POST table now body).status = 200 ∧
      (POST table now body).statements.head? =
        some (SqlStatement.select (body.businessId.getD "")) := by
  simp only [POST, h]
  split_ifs <;> exact ⟨rfl, rfl⟩

/-- The answer is 400 exactly when validation fails. -/
theorem POST_status_400_iff (table : List RatingRow) (now : Nat) (body : RatingBody) :
    (POST table now body).status = 400 ↔ validate body ≠ none := by
  cases h : validate body with
  | none =>
    have := (POST_of_valid table now body h).1
    simp [this]
  | some message => simp [POST_of_invalid table now body message h]

/-- A request answered 400 leaves the table as it was and sends no
statement. -/
theorem POST_400_untouched (table : List RatingRow) (now : Nat) (body : RatingBody)
    (h : (POST table now body).status = 400) :
    (POST table now body).table = table ∧ (POST table now body).statements = [] := by
  cases hv : validate body with
  | none => exact absurd hv ((POST_status_400_iff table now body).mp h)
  | some message => simp [POST_of_invalid table now body message hv]

/-- A body of the rating screen with a rating from 1 to 5 passes validation. -/
theorem validate_sampleBody (rating : ℚ) (review : String) (h1 : 1 ≤ rating)
    (h5 : rating ≤ 5) : validate (sampleBody rating review) = none :=
  (validate_eq_none_iff _).mpr
    ⟨"b1", "Cafe X", rating, rfl, by decide, rfl, by decide, rfl, h1, h5⟩

/-- The first valid request of the rating screen on an empty table inserts. -/
theorem POST_sampleBody_empty (now : Nat) (rating : ℚ) (review : String)
    (h1 : 1 ≤ rating) (h5 : rating ≤ 5) :
    (POST [] now (sampleBody rating review)).table =
      [{ id := 1, business_id := "b1", business_name := "Cafe X", user_rating := rating,
          user_review := orNull (some review), visited_date := now, updated_at := now }] := by
  rw [POST_of_absent [] now _ (validate_sampleBody rating review h1 h5) rfl]
  rfl

/-! ## Claims about the rating store -/

/-- C17, as stated, fails: one create-or-update call with the empty review
`""` on an empty store leaves a record whose `user_review` is `null`, not the
review argument `""` of the call. -/
theorem runPosts_empty_review_null :
    runPosts [] [(1, sampleBody 4 "")] =
        [{ id := 1, business_id := "b1", business_name := "Cafe X", user_rating := 4,
            user_review := none, visited_date := 1, updated_at := 1 }] ∧
      (sampleBody 4 "").review = some "" := by
  refine ⟨?_, rfl⟩
  show (POST [] 1 (sampleBody 4 "")).table = _
  rw [POST_sampleBody_empty 1 4 "" (by norm_num) (by norm_num)]
  rfl

/-- C17, amended: starting from a store with no record for business `b`, after
any non-empty sequence of successful create-or-update calls that all use
`businessId = b`, the store holds exactly one record for `b`; its
`user_rating` is the rating of the last call, its `user_review` is the review
of the last call with an empty or missing review stored as `null`, and its
`visited_date` is the time of the first call. -/
theorem runPosts_same_business (table : List RatingRow) (b : String)
    (first : Nat × RatingBody) (rest : List (Nat × RatingBody))
    (hnone : selectByBusiness table b = [])
    (hvalid : ∀ c ∈ first :: rest, c.2.businessId = some b ∧ validate c.2 = none) :
    ∃ row, selectByBusiness (runPosts table (first :: rest)) b = [row] ∧
      some row.user_rating =
        ((first :: rest).getLast (List.cons_ne_nil first rest)).2.rating ∧
      row.user_review =
        orNull ((first :: rest).getLast (List.cons_ne_nil first rest)).2.review ∧
      row.visited_date = first.1 := by
  obtain ⟨hfb, hfv⟩ := hvalid first (List.mem_cons_self _ _)
  obtain ⟨hbid, hrat⟩ := validate_fields first.2 b hfb hfv
  have hex : selectByBusiness table (first.2.businessId.getD "") = [] := by
    rw [hbid, hnone]
  have htable := POST_of_absent table first.1 first.2 hfv hex
  rw [hbid] at htable
  have hsel : selectByBusiness (POST table first.1 first.2).table b =
      [insertedRow table first.1 b (first.2.businessName.getD "")
        (first.2.rating.getD 0) (orNull first.2.review)] := by
    rw [htable, selectByBusiness_append_row, hnone]
    simp [insertedRow]
  obtain ⟨row, h1, h2, h3, h4⟩ :=
    runPosts_existing b rest (POST table first.1 first.2).table _ first hsel hrat rfl
      (fun c hc => hvalid c (List.mem_cons_of_mem _ hc))
  exact ⟨row, h1, h3, h4, h2⟩

theorem runPosts_same_business_witness :
    ∃ row, selectByBusiness
        (runPosts [] [(1, sampleBody 4 "Great"), (2, sampleBody 2 "")]) "b1" = [row] ∧
      some row.user_rating =
        ([(1, sampleBody 4 "Great"), (2, sampleBody 2 "")].getLast
          (List.cons_ne_nil _ _)).2.rating ∧
      row.user_review =
        orNull ([(1, sampleBody 4 "Great"), (2, sampleBody 2 "")].getLast
          (List.cons_ne_nil _ _)).2.review ∧
      row.visited_date = 1 :=
  runPosts_same_business [] "b1" (1, sampleBody 4 "Great") [(2, sampleBody 2 "")] rfl
    (by
      intro c hc
      simp only [List.mem_cons, List.mem_singleton, List.not_mem_nil, or_false] at hc
      rcases hc with rfl | rfl
      · exact ⟨rfl, validate_sampleBody 4 "Great" (by norm_num) (by norm_num)⟩
      · exact ⟨rfl, validate_sampleBody 2 "" (by norm_num) (by norm_num)⟩)

/-- C18: if the store holds at most one rating record per business
identifier, then after any create-or-update call, with any arguments, valid or
not, it still holds at most one record per business identifier. -/
theorem POST_preserves_atMostOne (table : List RatingRow) (now : Nat)
    (body : RatingBody) (h : AtMostOnePerBusiness table) :
    AtMostOnePerBusiness (POST table now body).table := by
  intro b'
  cases hv : validate body with
  | some message =>
    rw [POST_of_invalid table now body message hv]
    exact h b'
  | none =>
    by_cases hex : selectByBusiness table (body.businessId.getD "") = []
    · rw [POST_of_absent table now body hv hex, selectByBusiness_append_row]
      by_cases hb : body.businessId.getD "" = b'
      · rw [← hb, hex]
        simp [insertedRow]
      · have := h b'
        simp [insertedRow, hb, this]
    · rw [POST_of_existing table now body hv hex, selectByBusiness_update]
      split_ifs
      · rw [List.length_map]
        exact h b'
      · exact h b'

theorem POST_preserves_atMostOne_witness :
    AtMostOnePerBusiness (POST [] 1 (sampleBody 4 "Great")).table :=
  POST_preserves_atMostOne [] 1 (sampleBody 4 "Great") (fun _ => Nat.zero_le _)

/-- C19: for every request whose rating is an integer, the create-or-update
operation answers with the validation failure (status 400) exactly when
`businessId` is missing or empty, `businessName` is missing or empty, or the
rating is outside 1..5; and whenever it answers 400 the store is unchanged and
no statement, read or write, was sent to storage. -/
theorem POST_validation (table : List RatingRow) (now : Nat) (body : RatingBody)
    (n : ℤ) (hn : body.rating = some (n : ℚ)) :
    ((POST table now body).status = 400 ↔
      (body.businessId = none ∨ body.businessId = some "" ∨
        body.businessName = none ∨ body.businessName = some "" ∨ n < 1 ∨ 5 < n)) ∧
    ((POST table now body).status = 400 →
      (POST table now body).table = table ∧ (POST table now body).statements = []) := by
  refine ⟨?_, POST_400_untouched table now body⟩
  rw [POST_status_400_iff, Ne, validate_eq_none_iff]
  constructor
  · intro h
    by_contra hcon
    push_neg at hcon
    obtain ⟨h1, h2, h3, h4, h5, h6⟩ := hcon
    obtain ⟨b, hb⟩ := Option.ne_none_iff_exists'.mp h1
    obtain ⟨m, hm⟩ := Option.ne_none_iff_exists'.mp h3
    refine h ⟨b, m, (n : ℚ), hb, ?_, hm, ?_, hn, ?_, ?_⟩
    · rintro rfl
      exact h2 hb
    · rintro rfl
      exact h4 hm
    · exact_mod_cast h5
    · exact_mod_cast h6
  · rintro h ⟨b, m, r, hb, hb', hm, hm', hr, h1, h5⟩
    rw [hn] at hr
    have hr' : (n : ℚ) = r := Option.some.inj hr
    rw [← hr'] at h1 h5
    have h1' : (1 : ℤ) ≤ n := by exact_mod_cast h1
    have h5' : n ≤ (5 : ℤ) := by exact_mod_cast h5
    rcases h with h | h | h | h | h | h
    · rw [hb] at h; cases h
    · rw [hb] at h; exact hb' (Option.some.inj h)
    · rw [hm] at h; cases h
    · rw [hm] at h; exact hm' (Option.some.inj h)
    · omega
    · omega

theorem POST_validation_witness :
    (POST [] 1 (sampleBody ((7 : ℤ) : ℚ) "Great")).status = 400 ∧
      (POST [] 1 (sampleBody ((7 : ℤ) : ℚ) "Great")).table = [] ∧
      (POST [] 1 (sampleBody ((7 : ℤ) : ℚ) "Great")).statements = [] :=
  have h := POST_validation [] 1 (sampleBody ((7 : ℤ) : ℚ) "Great") 7 rfl
  have h400 := h.1.mpr (Or.inr (Or.inr (Or.inr (Or.inr (Or.inr (by norm_num))))))
  ⟨h400, h.2 h400⟩

/-- C20, as stated, fails: the rating 2.5 passes validation and reaches
persistence: the request is answered 200, a lookup and an insert are sent, and
the store holds a record with `user_rating = 2.5`. -/
theorem POST_accepts_two_and_a_half :
    (POST [] 1 (sampleBody (5 / 2) "Great")).status = 200 ∧
      (POST [] 1 (sampleBody (5 / 2) "Great")).statements.head? =
        some (SqlStatement.select "b1") ∧
      (POST [] 1 (sampleBody (5 / 2) "Great")).table =
        [{ id := 1, business_id := "b1", business_name := "Cafe X", user_rating := 5 / 2,
            user_review := some "Great", visited_date := 1, updated_at := 1 }] := by
  have hv := validate_sampleBody (5 / 2) "Great" (by norm_num) (by norm_num)
  refine ⟨(POST_of_valid [] 1 _ hv).1, (POST_of_valid [] 1 _ hv).2, ?_⟩
  rw [POST_sampleBody_empty 1 (5 / 2) "Great" (by norm_num) (by norm_num)]
  rfl

/-- C20, amended: the create-or-update operation validates that the rating is
between 1 and 5, not that it is an integer: with `businessId` and
`businessName` non-empty, every rating from 1 to 5, integer or not (2.5 for
example), passes validation and reaches persistence, and every rating below 1
or above 5 fails with the validation error without reaching persistence. -/
theorem POST_rating_range (table : List RatingRow) (now : Nat) (body : RatingBody)
    (b m : String) (r : ℚ) (hb : body.businessId = some b) (hb' : b ≠ "")
    (hm : body.businessName = some m) (hm' : m ≠ "") (hr : body.rating = some r) :
    (1 ≤ r ∧ r ≤ 5 →
      (POST table now body).status = 200 ∧
        (POST table now body).statements.head? = some (SqlStatement.select b)) ∧
    (r < 1 ∨ 5 < r →
      (POST table now body).status = 400 ∧ (POST table now body).table = table ∧
        (POST table now body).statements = []) := by
  constructor
  · rintro ⟨h1, h5⟩
    have hv : validate body = none :=
      (validate_eq_none_iff body).mpr ⟨b, m, r, hb, hb', hm, hm', hr, h1, h5⟩
    have := POST_of_valid table now body hv
    rw [hb] at this
    exact this
  · intro h
    have h400 : (POST table now body).status = 400 := by
      rw [POST_status_400_iff, Ne, validate_eq_none_iff]
      rintro ⟨_, _, r', _, _, _, _, hr', h1, h5⟩
      rw [hr] at hr'
      have e : r = r' := Option.some.inj hr'
      rw [← e] at h1 h5
      rcases h with h | h
      · exact absurd h1 (not_le.mpr h)
      · exact absurd h5 (not_le.mpr h)
    exact ⟨h400, POST_400_untouched table now body h400⟩

theorem POST_rating_range_witness :
    (POST [] 1 (sampleBody (7 / 2) "Good")).status = 200 ∧
      (POST [] 1 (sampleBody (7 / 2) "Good")).statements.head? =
        some (SqlStatement.select "b1") :=
  (POST_rating_range [] 1 (sampleBody (7 / 2) "Good") "b1" "Cafe X" (7 / 2) rfl
    (by decide) rfl (by decide) rfl).1 ⟨by norm_num, by norm_num⟩

/-! ## Facts about the get route -/

/-- For a non-empty identifier the get route answers 200 with the first row of
the business, `null` when there is none, after one lookup. -/
theorem GET_of_nonempty (table : List RatingRow) (b : String) (hb : b ≠ "") :
    RatingsGet.GET table (some b) =
      { status := 200, error := none, rating := (selectByBusiness table b).head?,
        table := table, statements := [SqlStatement.select b] } := by
  have hn : notString (some b) = false := by simp [notString, hb]
  cases hs : selectByBusiness table b with
  | nil => simp [RatingsGet.GET, hn, hs]
  | cons row rest => simp [RatingsGet.GET, hn, hs]

/-- A row is among the rows of its business. -/
theorem mem_selectByBusiness {table : List RatingRow} {row : RatingRow} {b : String} :
    row ∈ selectByBusiness table b ↔ row ∈ table ∧ row.business_id = b := by
  simp [selectByBusiness, List.mem_filter]

/-- The returned row of a valid request for a business that has a row. -/
theorem POST_rating_of_existing (table : List RatingRow) (now : Nat) (body : RatingBody)
    (h : validate body = none)
    (hex : selectByBusiness table (body.businessId.getD "") ≠ []) :
    (POST table now body).rating =
      (selectByBusiness (POST table now body).table (body.businessId.getD "")).head? := by
  have hlen : ((selectByBusiness table (body.businessId.getD "")).take 1).length > 0 := by
    cases hs : selectByBusiness table (body.businessId.getD "") with
    | nil => exact absurd hs hex
    | cons x xs => simp
  simp only [POST, h, if_pos hlen]

/-- An update changes row by row: identity, business, name and creation time
stay; a row of the business gets the new rating, review and update time and a
row of another business stays as it is. -/
theorem updateByBusiness_forall₂ (now : Nat) (b : String) (rating : ℚ)
    (review : Option String) :
    ∀ table : List RatingRow,
      List.Forall₂
        (fun old new : RatingRow =>
          new.id = old.id ∧ new.business_id = old.business_id ∧
            new.business_name = old.business_name ∧
            new.visited_date = old.visited_date ∧
            (old.business_id = b →
              new.user_rating = rating ∧ new.user_review = review ∧
                new.updated_at = now) ∧
            (old.business_id ≠ b → new = old))
        table (updateByBusiness table now b rating review)
  | [] => List.Forall₂.nil
  | row :: rows => by
    rw [updateByBusiness_cons]
    refine List.Forall₂.cons ?_ (updateByBusiness_forall₂ now b rating review rows)
    by_cases hr : row.business_id = b
    · simp [hr]
    · simp [hr]

/-- The table of the scenario after its two calls. -/
theorem runPosts_scenario :
    runPosts [] [(1, sampleBody 4 "Great"), (2, sampleBody 2 "")] =
      [{ id := 1, business_id := "b1", business_name := "Cafe X", user_rating := 2,
          user_review := none, visited_date := 1, updated_at := 2 }] := by
  have h1 := POST_sampleBody_empty 1 4 "Great" (by norm_num) (by norm_num)
  have hv := validate_sampleBody 2 "" (by norm_num) (by norm_num)
  show runPosts (POST [] 1 (sampleBody 4 "Great")).table [(2, sampleBody 2 "")] = _
  rw [h1]
  show (POST _ 2 (sampleBody 2 "")).table = _
  rw [POST_of_existing _ 2 _ hv (by simp [selectByBusiness, sampleBody])]
  simp [updateByBusiness, sampleBody, orNull]

/-! ## Claims about the get route and the update -/

/-- C21, as stated, fails: after `upsert("b1", "Cafe X", 4, "Great")` and
`upsert("b1", "Cafe X", 2, "")` on an empty store, the record that
`get("b1")` returns has `user_review` `null`, not the empty string. -/
theorem GET_scenario_review_not_empty :
    ∃ row, (RatingsGet.GET (runPosts [] [(1, sampleBody 4 "Great"), (2, sampleBody 2 "")])
        (some "b1")).rating = some row ∧
      row.user_review = none ∧ row.user_review ≠ some "" := by
  rw [runPosts_scenario, GET_of_nonempty _ "b1" (by decide)]
  exact ⟨_, rfl, rfl, by simp⟩

/-- C21, amended: on an empty store, `upsert("b1", "Cafe X", 4, "Great")`
followed by `upsert("b1", "Cafe X", 2, "")` leaves a single record for `b1`,
and `get("b1")` answers 200 with that record, whose `user_rating` is 2 and
whose `user_review` is `null`. -/
theorem GET_scenario :
    selectByBusiness (runPosts [] [(1, sampleBody 4 "Great"), (2, sampleBody 2 "")]) "b1" =
        [{ id := 1, business_id := "b1", business_name := "Cafe X", user_rating := 2,
            user_review := none, visited_date := 1, updated_at := 2 }] ∧
      (RatingsGet.GET (runPosts [] [(1, sampleBody 4 "Great"), (2, sampleBody 2 "")])
          (some "b1")).status = 200 ∧
      (RatingsGet.GET (runPosts [] [(1, sampleBody 4 "Great"), (2, sampleBody 2 "")])
          (some "b1")).rating =
        some
          { id := 1, business_id := "b1", business_name := "Cafe X", user_rating := 2,
            user_review := none, visited_date := 1, updated_at := 2 } := by
  rw [runPosts_scenario, GET_of_nonempty _ "b1" (by decide)]
  exact ⟨rfl, rfl, rfl⟩

/-- C22: when a record for `businessId` exists, a valid create-or-update call
changes only `user_rating`, `user_review` and `updated_at` of the records of
that business: row by row, `id`, `business_id`, `business_name` and
`visited_date` stay, a row of the business gets the rating and the review of
the call (an empty review as `null`) and `updated_at` the current time, a row
of another business stays as it is; no record is created, the store keeps its
size; and the returned record is the updated record. -/
theorem POST_update_frame (table : List RatingRow) (now : Nat) (body : RatingBody)
    (b : String) (hb : body.businessId = some b) (hv : validate body = none)
    (hex : selectByBusiness table b ≠ []) :
    List.Forall₂
        (fun old new : RatingRow =>
          new.id = old.id ∧ new.business_id = old.business_id ∧
            new.business_name = old.business_name ∧
            new.visited_date = old.visited_date ∧
            (old.business_id = b →
              some new.user_rating = body.rating ∧ new.user_review = orNull body.review ∧
                new.updated_at = now) ∧
            (old.business_id ≠ b → new = old))
        table (POST table now body).table ∧
      (POST table now body).table.length = table.length ∧
      ∃ row, (POST table now body).rating = some row ∧
        row ∈ (POST table now body).table ∧ row.business_id = b ∧
        some row.user_rating = body.rating ∧ row.user_review = orNull body.review ∧
        row.updated_at = now := by
  obtain ⟨hbid, hrat⟩ := validate_fields body b hb hv
  have hex' : selectByBusiness table (body.businessId.getD "") ≠ [] := by rwa [hbid]
  have htable := POST_of_existing table now body hv hex'
  have hret := POST_rating_of_existing table now body hv hex'
  rw [hbid] at htable hret
  have hall := updateByBusiness_forall₂ now b (body.rating.getD 0) (orNull body.review) table
  rw [← htable] at hall
  have hall' := hall.imp (fun old new h =>
    (⟨h.1, h.2.1, h.2.2.1, h.2.2.2.1,
      fun ho => ⟨by rw [(h.2.2.2.2.1 ho).1]; exact hrat, (h.2.2.2.2.1 ho).2⟩,
      h.2.2.2.2.2⟩ : new.id = old.id ∧ new.business_id = old.business_id ∧
        new.business_name = old.business_name ∧ new.visited_date = old.visited_date ∧
        (old.business_id = b →
          some new.user_rating = body.rating ∧ new.user_review = orNull body.review ∧
            new.updated_at = now) ∧
        (old.business_id ≠ b → new = old)))
  refine ⟨hall', hall.length_eq.symm, ?_⟩
  have hsel : selectByBusiness (POST table now body).table b =
      (selectByBusiness table b).map fun row =>
        { row with
          user_rating := (body.rating.getD 0)
          user_review := (orNull body.review)
          updated_at := now } := by
    rw [htable, selectByBusiness_update, if_pos rfl]
  cases hs : selectByBusiness table b with
  | nil => exact absurd hs hex
  | cons old rest =>
    rw [hs] at hsel
    have hold : old ∈ table ∧ old.business_id = b :=
      mem_selectByBusiness.mp (by rw [hs]; exact List.mem_cons_self _ _)
    have hmem : ({ old with
        user_rating := (body.rating.getD 0)
        user_review := (orNull body.review)
        updated_at := now } : RatingRow) ∈ selectByBusiness (POST table now body).table b := by
      rw [hsel]
      exact List.mem_cons_self _ _
    exact ⟨{ old with
        user_rating := (body.rating.getD 0)
        user_review := (orNull body.review)
        updated_at := now }, by rw [hret, hsel]; rfl, (mem_selectByBusiness.mp hmem).1,
      hold.2, hrat, rfl, rfl⟩

theorem POST_update_frame_witness :
    (POST tableWithCafe 2 (sampleBody 2 "Fine")).table.length = tableWithCafe.length :=
  (POST_update_frame tableWithCafe 2 (sampleBody 2 "Fine") "b1" rfl
    (validate_sampleBody 2 "Fine" (by norm_num) (by norm_num))
    (by simp [selectByBusiness, tableWithCafe])).2.1

/-- The body with the other display name passes validation. -/
theorem validate_renamedBody (rating : ℚ) (review : String) (h1 : 1 ≤ rating)
    (h5 : rating ≤ 5) : validate (renamedBody rating review) = none :=
  (validate_eq_none_iff _).mpr
    ⟨"b1", "Cafe Y", rating, rfl, by decide, rfl, by decide, rfl, h1, h5⟩

/-- C23, as stated, fails: a valid call for the existing business `b1` that
carries the name `Cafe Y` leaves the stored `business_name` `Cafe X`. -/
theorem POST_keeps_first_name :
    (renamedBody 2 "Fine").businessName = some "Cafe Y" ∧
      (POST tableWithCafe 2 (renamedBody 2 "Fine")).table =
        [{ id := 1, business_id := "b1", business_name := "Cafe X", user_rating := 2,
            user_review := some "Fine", visited_date := 1, updated_at := 2 }] := by
  refine ⟨rfl, ?_⟩
  rw [POST_of_existing _ 2 _ (validate_renamedBody 2 "Fine" (by norm_num) (by norm_num))
    (by simp [selectByBusiness, tableWithCafe, renamedBody, sampleBody])]
  simp [updateByBusiness, tableWithCafe, renamedBody, sampleBody, orNull]

/-- C23, amended: the stored display name is that of the call that created
the record: a valid create-or-update call for a business that has a record
leaves the `business_name` of every record as it is, whatever `businessName`
it carries, and a valid call for a business that has no record stores its
`businessName` in the record it creates. -/
theorem POST_business_name (table : List RatingRow) (now : Nat) (body : RatingBody)
    (b : String) (hb : body.businessId = some b) (hv : validate body = none) :
    (selectByBusiness table b ≠ [] →
      (POST table now body).table.map RatingRow.business_name =
        table.map RatingRow.business_name) ∧
    (selectByBusiness table b = [] →
      ∃ row, (POST table now body).table = table ++ [row] ∧
        some row.business_name = body.businessName) := by
  obtain ⟨hbid, _⟩ := validate_fields body b hb hv
  obtain ⟨_, m, _, _, _, hm, _, _, _, _⟩ := (validate_eq_none_iff body).mp hv
  constructor
  · intro hex
    have hex' : selectByBusiness table (body.businessId.getD "") ≠ [] := by rwa [hbid]
    rw [POST_of_existing table now body hv hex']
    simp only [updateByBusiness, List.map_map]
    apply List.map_congr_left
    intro row _
    simp only [Function.comp]
    split_ifs <;> rfl
  · intro hex
    have hex' : selectByBusiness table (body.businessId.getD "") = [] := by rwa [hbid]
    refine ⟨_, POST_of_absent table now body hv hex', ?_⟩
    rw [hm]
    rfl

theorem POST_business_name_witness :
    (POST tableWithCafe 2 (renamedBody 2 "Fine")).table.map RatingRow.business_name =
      tableWithCafe.map RatingRow.business_name :=
  (POST_business_name tableWithCafe 2 (renamedBody 2 "Fine") "b1" rfl
    (validate_renamedBody 2 "Fine" (by norm_num) (by norm_num))).1
    (by simp [selectByBusiness, tableWithCafe])

/-- C24: for every non-empty `businessId` the get operation answers 200
without error; when the store holds a record with that identifier the `rating`
of the answer is such a stored record, the stored record when the store holds
one record per business; when it holds none the `rating` is `null`; the store
is never changed. -/
theorem GET_spec (table : List RatingRow) (b : String) (hb : b ≠ "") :
    (RatingsGet.GET table (some b)).status = 200 ∧
    (RatingsGet.GET table (some b)).error = none ∧
    ((∃ row ∈ table, row.business_id = b) →
      ∃ row ∈ table, row.business_id = b ∧
        (RatingsGet.GET table (some b)).rating = some row) ∧
    (AtMostOnePerBusiness table →
      ∀ row ∈ table, row.business_id = b →
        (RatingsGet.GET table (some b)).rating = some row) ∧
    ((∀ row ∈ table, row.business_id ≠ b) →
      (RatingsGet.GET table (some b)).rating = none) ∧
    (RatingsGet.GET table (some b)).table = table := by
  rw [GET_of_nonempty table b hb]
  refine ⟨rfl, rfl, ?_, ?_, ?_, rfl⟩
  · rintro ⟨row, hrow, hrb⟩
    cases hs : selectByBusiness table b with
    | nil =>
      have : row ∈ selectByBusiness table b := mem_selectByBusiness.mpr ⟨hrow, hrb⟩
      rw [hs] at this
      cases this
    | cons first rest =>
      have hf : first ∈ table ∧ first.business_id = b :=
        mem_selectByBusiness.mp (by rw [hs]; exact List.mem_cons_self _ _)
      exact ⟨first, hf.1, hf.2, rfl⟩
  · intro hone row hrow hrb
    have hmem : row ∈ selectByBusiness table b := mem_selectByBusiness.mpr ⟨hrow, hrb⟩
    have hlen := hone b
    cases hs : selectByBusiness table b with
    | nil =>
      rw [hs] at hmem
      cases hmem
    | cons first rest =>
      rw [hs] at hmem hlen
      have hrest : rest = [] := by
        cases rest with
        | nil => rfl
        | cons x xs => simp at hlen
      subst hrest
      rw [List.mem_singleton] at hmem
      rw [hmem]
      rfl
  · intro hnone
    cases hs : selectByBusiness table b with
    | nil => rfl
    | cons first rest =>
      have hf : first ∈ table ∧ first.business_id = b :=
        mem_selectByBusiness.mp (by rw [hs]; exact List.mem_cons_self _ _)
      exact absurd hf.2 (hnone first hf.1)

theorem GET_spec_witness :
    (RatingsGet.GET tableWithCafe (some "b1")).status = 200 ∧
      (RatingsGet.GET tableWithCafe (some "b9")).rating = none :=
  ⟨(GET_spec tableWithCafe "b1" (by decide)).1,
    (GET_spec tableWithCafe "b9" (by decide)).2.2.2.2.1 (by
      intro row hrow
      simp only [tableWithCafe, List.mem_singleton] at hrow
      subst hrow
      decide)⟩

/-- C28: frame property of create-or-update: for every store and every call,
valid or not, the records of a business other than the one the call names are
left as they are, none added, none removed, none changed. -/
theorem POST_frame (table : List RatingRow) (now : Nat) (body : RatingBody)
    (other : String) (hother : body.businessId ≠ some other) :
    selectByBusiness (POST table now body).table other =
      selectByBusiness table other := by
  cases hv : validate body with
  | some message => rw [POST_of_invalid table now body message hv]
  | none =>
    obtain ⟨b, _, _, hb, _, _, _, _, _, _⟩ := (validate_eq_none_iff body).mp hv
    have hbid : body.businessId.getD "" = b := by rw [hb]; rfl
    have hne : ¬ other = b := by
      intro h
      exact hother (by rw [hb, h])
    by_cases hex : selectByBusiness table (body.businessId.getD "") = []
    · rw [POST_of_absent table now body hv hex, selectByBusiness_append_row, hbid]
      have : ¬ b = other := fun h => hne h.symm
      simp [insertedRow, this]
    · rw [POST_of_existing table now body hv hex, selectByBusiness_update, hbid,
        if_neg hne]

theorem POST_frame_witness :
    selectByBusiness (POST tableWithCafe 2 (sampleBody 2 "Fine")).table "b9" =
      selectByBusiness tableWithCafe "b9" :=
  POST_frame tableWithCafe 2 (sampleBody 2 "Fine") "b9" (by decide)

/-! ## Facts about the list route -/

/-- `ORDER BY visited_date DESC` reorders the table, newest creation first. -/
theorem orderByVisitedDesc_spec (table : List RatingRow) :
    (orderByVisitedDesc table).Perm table ∧
      (orderByVisitedDesc table).Pairwise fun a b => b.visited_date ≤ a.visited_date := by
  haveI : IsTotal RatingRow (fun a b => b.visited_date ≤ a.visited_date) :=
    ⟨fun a b => le_total b.visited_date a.visited_date⟩
  haveI : IsTrans RatingRow (fun a b => b.visited_date ≤ a.visited_date) :=
    ⟨fun _ _ _ hab hbc => le_trans hbc hab⟩
  exact ⟨List.perm_insertionSort _ table, List.sorted_insertionSort _ table⟩

/-- With a non-negative limit and offset the list route answers 200 with the
page. -/
theorem list_of_page
    (invalidPage : List RatingRow → PageQuery → Option (List RatingRow))
    (table : List RatingRow) (limitParam offsetParam : Option String) (limit offset : Nat)
    (hl : parseInt (orDefault limitParam "50") = some (limit : Int))
    (ho : parseInt (orDefault offsetParam "0") = some (offset : Int)) :
    RatingsList.GET invalidPage table limitParam offsetParam =
      { status := 200, error := none,
        ratings := some (((orderByVisitedDesc table).drop offset).take limit),
        table := table,
        statements := [{ limit := some (limit : Int), offset := some (offset : Int) }] } := by
  simp [RatingsList.GET, hl, ho, selectPage]

/-- Of two records, the one created later comes first. -/
theorem orderByVisitedDesc_pair (r1 r2 : RatingRow)
    (h : r1.visited_date < r2.visited_date) :
    orderByVisitedDesc [r1, r2] = [r2, r1] ∧ orderByVisitedDesc [r2, r1] = [r2, r1] := by
  have h1 : ¬ r2.visited_date ≤ r1.visited_date := not_le.mpr h
  have h2 : r1.visited_date ≤ r2.visited_date := le_of_lt h
  constructor
  · simp [orderByVisitedDesc, List.insertionSort, List.orderedInsert, h1]
  · simp [orderByVisitedDesc, List.insertionSort, List.orderedInsert, h2]

/-! ## Claims about the list route -/

/-- C25: for every store and every `limit` and `offset` that parse to
non-negative integers, list answers with the records ordered by
`visited_date` descending (the creation time), without the first `offset` of
them and at most `limit` of them; an absent `limit` or `offset` behaves as
`50` or `0`; and `list(limit = 1, offset = 0)` over two records created at
`T1 < T2` returns only the record of `T2`. -/
theorem list_spec
    (invalidPage : List RatingRow → PageQuery → Option (List RatingRow))
    (table : List RatingRow) :
    (∀ (limitParam offsetParam : Option String) (limit offset : Nat),
      parseInt (orDefault limitParam "50") = some (limit : Int) →
      parseInt (orDefault offsetParam "0") = some (offset : Int) →
      ∃ ordered : List RatingRow, ordered.Perm table ∧
        ordered.Pairwise (fun a b => b.visited_date ≤ a.visited_date) ∧
        (RatingsList.GET invalidPage table limitParam offsetParam).status = 200 ∧
        (RatingsList.GET invalidPage table limitParam offsetParam).ratings =
          some ((ordered.drop offset).take limit) ∧
        ((ordered.drop offset).take limit).length ≤ limit) ∧
    (∀ offsetParam, RatingsList.GET invalidPage table none offsetParam =
      RatingsList.GET invalidPage table (some "50") offsetParam) ∧
    (∀ limitParam, RatingsList.GET invalidPage table limitParam none =
      RatingsList.GET invalidPage table limitParam (some "0")) ∧
    (parseInt "50" = some 50 ∧ parseInt "0" = some 0) ∧
    (∀ r1 r2 : RatingRow, r1.visited_date < r2.visited_date →
      (RatingsList.GET invalidPage [r1, r2] (some "1") (some "0")).ratings = some [r2] ∧
      (RatingsList.GET invalidPage [r2, r1] (some "1") (some "0")).ratings = some [r2]) := by
  refine ⟨?_, fun _ => rfl, fun _ => rfl, ⟨by decide, by decide⟩, ?_⟩
  · intro limitParam offsetParam limit offset hl ho
    obtain ⟨hperm, hsorted⟩ := orderByVisitedDesc_spec table
    refine ⟨orderByVisitedDesc table, hperm, hsorted, ?_, ?_, ?_⟩
    · rw [list_of_page invalidPage table limitParam offsetParam limit offset hl ho]
    · rw [list_of_page invalidPage table limitParam offsetParam limit offset hl ho]
    · exact List.length_take_le _ _
  · intro r1 r2 h
    have h1 : parseInt (orDefault (some "1") "50") = some ((1 : Nat) : Int) := by decide
    have h0 : parseInt (orDefault (some "0") "0") = some ((0 : Nat) : Int) := by decide
    obtain ⟨e1, e2⟩ := orderByVisitedDesc_pair r1 r2 h
    constructor
    · rw [list_of_page invalidPage [r1, r2] (some "1") (some "0") 1 0 h1 h0, e1]
      rfl
    · rw [list_of_page invalidPage [r2, r1] (some "1") (some "0") 1 0 h1 h0, e2]
      rfl

theorem list_spec_witness :
    (RatingsList.GET throwOnInvalidPage
        [{ id := 1, business_id := "b1", business_name := "Cafe X", user_rating := 4,
            user_review := none, visited_date := 1, updated_at := 9 },
          { id := 2, business_id := "b2", business_name := "Diner Y", user_rating := 3,
            user_review := none, visited_date := 2, updated_at := 2 }]
        (some "1") (some "0")).ratings =
      some
        [{ id := 2, business_id := "b2", business_name := "Diner Y", user_rating := 3,
            user_review := none, visited_date := 2, updated_at := 2 }] :=
  ((list_spec throwOnInvalidPage []).2.2.2.2 _ _ (by decide)).1

/-- C26, as stated, fails: for `limit=-5` the list route neither answers with
a validation error nor clamps: the statement it sends carries `LIMIT -5`, and
with a database that throws on it the answer is the 500 of the `catch`
branch. -/
theorem list_passes_negative_limit :
    (RatingsList.GET throwOnInvalidPage tableWithCafe (some "-5") none).statements =
        [{ limit := some (-5), offset := some 0 }] ∧
      (RatingsList.GET throwOnInvalidPage tableWithCafe (some "-5") none).status = 500 := by
  have hl : parseInt (orDefault (some "-5") "50") = some (-5) := by decide
  have ho : parseInt (orDefault none "0") = some 0 := by decide
  simp [RatingsList.GET, hl, ho, selectPage, throwOnInvalidPage]

/-- C26, amended: the list operation neither rejects nor clamps a negative
`limit` or `offset`: for every request it never answers with a validation
error (status 400) and it sends one statement, whose `LIMIT` and `OFFSET` are
the parsed parameters as they are, negative or not. -/
theorem list_passes_parameters
    (invalidPage : List RatingRow → PageQuery → Option (List RatingRow))
    (table : List RatingRow) (limit offset : Option String) :
    (RatingsList.GET invalidPage table limit offset).statements =
        [{ limit := parseInt (orDefault limit "50"),
           offset := parseInt (orDefault offset "0") }] ∧
      (RatingsList.GET invalidPage table limit offset).status ≠ 400 ∧
      (RatingsList.GET invalidPage table limit offset).table = table := by
  simp only [RatingsList.GET]
  cases selectPage invalidPage table
    { limit := parseInt (orDefault limit "50"),
      offset := parseInt (orDefault offset "0") } <;> simp

/-! ## Two requests at once: facts and claim -/

/-- Served alone, the two halves of `POST` make the table that `POST` makes,
with or without a unique constraint. -/
theorem POSTWrite_POSTLookup (unique : Bool) (table : List RatingRow) (now : Nat)
    (body : RatingBody) :
    POSTWrite unique table now (POSTLookup table body) =
      some (POST table now body).table := by
  cases hv : validate body with
  | some message => simp [POSTLookup, POSTWrite, POST, hv]
  | none =>
    by_cases hex : selectByBusiness table (body.businessId.getD "") = []
    · rw [POST_of_absent table now body hv hex]
      simp [POSTLookup, POSTWrite, hv, hex]
    · rw [POST_of_existing table now body hv hex]
      have hlen : ((selectByBusiness table (body.businessId.getD "")).take 1).length > 0 := by
        cases hs : selectByBusiness table (body.businessId.getD "") with
        | nil => exact absurd hs hex
        | cons x xs => simp
      simp only [POSTLookup, hv, if_pos hlen, POSTWrite]

/-- On an empty table a valid body of the rating screen decides to insert. -/
theorem POSTLookup_sampleBody_empty (rating : ℚ) (review : String) (h1 : 1 ≤ rating)
    (h5 : rating ≤ 5) :
    POSTLookup [] (sampleBody rating review) =
      Pending.insert "b1" "Cafe X" rating (orNull (some review)) := by
  simp only [POSTLookup, validate_sampleBody rating review h1 h5]
  rfl

/-- C27: the create-or-update operation is not atomic.  Two calls for the
business `b1` on an empty store, both lookups running before both writes:
without a unique constraint the store ends with two records for `b1`; with
one, the second insert throws and the store keeps the rating 4 of the first
call, the rating 2 of the second call being lost. -/
theorem race_breaks_upsert :
    ¬ AtMostOnePerBusiness
        (raceBothLookupsFirst false [] (1, sampleBody 4 "Great") (2, sampleBody 2 "Fine")) ∧
      raceBothLookupsFirst true [] (1, sampleBody 4 "Great") (2, sampleBody 2 "Fine") =
        [{ id := 1, business_id := "b1", business_name := "Cafe X", user_rating := 4,
            user_review := some "Great", visited_date := 1, updated_at := 1 }] := by
  have hA := POSTLookup_sampleBody_empty 4 "Great" (by norm_num) (by norm_num)
  have hB := POSTLookup_sampleBody_empty 2 "Fine" (by norm_num) (by norm_num)
  constructor
  · intro h
    have := h "b1"
    simp [raceBothLookupsFirst, hA, hB, POSTWrite, selectByBusiness, insertedRow] at this
  · simp [raceBothLookupsFirst, hA, hB, POSTWrite, selectByBusiness, insertedRow, orNull]

/-! ## Claims about the ranking frame and the second distance -/

/-- C29: the ranking step only adds the derived fields and reorders: the
ranked output has the length of the input, it is a permutation of the input
records each carried through the map callback, and the callback leaves every
provider field of a record as it is and sets `distance` and `rankScore`. -/
theorem rankResults_frame (M : MathFns α) (lat lon : JSNum α) (data : List (Place α)) :
    (rankResults M lat lon data).length = data.length ∧
    (rankResults M lat lon data).Perm (data.map (rankEntry M lat lon)) ∧
    ∀ p : Place α,
      (rankEntry M lat lon p).business_id = p.business_id ∧
      (rankEntry M lat lon p).name = p.name ∧
      (rankEntry M lat lon p).rating = p.rating ∧
      (rankEntry M lat lon p).review_count = p.review_count ∧
      (rankEntry M lat lon p).latitude = p.latitude ∧
      (rankEntry M lat lon p).longitude = p.longitude ∧
      (rankEntry M lat lon p).business_status = p.business_status ∧
      (rankEntry M lat lon p).distance =
        some (calculateDistance M lat lon (toNumber p.latitude) (toNumber p.longitude)) ∧
      (rankEntry M lat lon p).rankScore =
        some (calculateRankScore (orZero p.rating) (orZero p.review_count)
          (calculateDistance M lat lon (toNumber p.latitude) (toNumber p.longitude))) := by
  have hperm := rankResults_perm M lat lon data
  refine ⟨by rw [hperm.length_eq, List.length_map], hperm, fun p => ?_⟩
  exact ⟨rfl, rfl, rfl, rfl, rfl, rfl, rfl, rfl, rfl⟩

/-- C30: the two copies of the distance computation agree: for every origin
and destination, `calculateDistance` of `directions.jsx` returns what
`calculateDistance(origin.latitude, origin.longitude, destination.latitude,
destination.longitude)` of `results.jsx` returns. -/
theorem directions_calculateDistance_eq (M : MathFns α)
    (origin destination : Coordinates α) :
    Directions.calculateDistance M origin destination =
      calculateDistance M origin.latitude origin.longitude destination.latitude
        destination.longitude := rfl

end Findora
